import Mathlib

/-!
# WebGPU softmax and grouped convolution (`jsep/webgpu/ops/softmax.js`, `conv-grouped.js`)

A shallow embedding of two operators of the JSEP WebGPU backend. For softmax:

* the host side (`validateInputs`, `createSoftmaxProgramInfo`, `softmax`), with JS exceptions as
  `Except String`, JS numbers as the rationals that are IEEE 754 doubles (`none` for a non-finite
  value), each arithmetic result rounded to the nearest double, and the effect of calling
  `context.compute` made explicit as a state transformer;
* the generated WGSL text (`getShaderSource`);
* the meaning of the generated kernel for one workgroup of 64 invocations, stepping from barrier to
  barrier, with `i32` arithmetic wrapping modulo `2^32` and tensor values in an ordered field.

For the grouped convolution: the metadata, the loader and the descriptor
(`createGroupedConvProgramMetadata`, `createGroupedConvProgramInfoLoader`,
`createGroupedConvProgramInfo`), the generated text with the snippets of the helper modules as
parameters, and the meaning of the generated kernel for one invocation, with `u32` arithmetic
wrapping modulo `2^32` and tensor values in a commutative ring.
-/

namespace Jsep

/-! ## Host side -/

/-- Modelled from the spec: GPU-data-type tags of a program's input type signature (`types.js` is
not among the sources); `default` is the only tag the operator uses. -/
abbrev GpuDataType := Nat

/-- The tag `GpuDataType.default`. -/
def GpuDataType.default : GpuDataType := 0

/-- A tensor view: dimension sizes and the element data type tag (`1` is `DataType.float`). The
storage handle plays no role in program generation. -/
structure TensorView where
  dims : List Nat
  dataType : Nat
deriving DecidableEq, Repr

/-- A JS number: the rational value of a finite double or, as `none`, a value that is not finite
(`NaN`, `Infinity`). -/
abbrev JSNumber := Option ℚ

/-- Rounding of a rational to the nearest integer, a tie going to the even neighbour. -/
def roundHalfEven (q : ℚ) : Int :=
  let f := ⌊q⌋
  let r := q - f
  if r < 1 / 2 then f
  else if 1 / 2 < r then f + 1
  else if f % 2 = 0 then f else f + 1

/-- The double that a JS arithmetic operation returns for the exact result `q`: IEEE 754 binary64
rounding to nearest, ties to even. With `2^e ≤ |q| < 2^(e+1)` (and `e` no less than `-1022`, below
which the doubles are subnormal) the doubles around `q` are the multiples of `2^(e-52)`; a rounded
value of magnitude `2^1024` or more is infinite. -/
def roundDouble (q : ℚ) : JSNumber :=
  if q = 0 then some 0
  else
    let e := max (Int.log 2 |q|) (-1022)
    let ulp : ℚ := 2 ^ (e - 52)
    let r := (roundHalfEven (q / ulp) : ℚ) * ulp
    if (2 : ℚ) ^ (1024 : Nat) ≤ |r| then none else some r

/-- JS `a * b` for a dimension `b`: a product with a value that is not finite is not finite. -/
def jsMul (a : JSNumber) (b : Nat) : JSNumber :=
  a.bind fun a => roundDouble (a * (b : ℚ))

/-- JS `a / b` where the divisor may be `undefined`: `x / undefined` and `0 / 0` are `NaN`, a
non-zero number over zero is infinite, and a quotient of finite numbers is rounded to a double. -/
def jsDiv (a : JSNumber) (b : Option Nat) : JSNumber :=
  match b with
  | none => none
  | some 0 => none
  | some (n + 1) => a.bind fun a => roundDouble (a / ((n + 1 : Nat) : ℚ))

/-- JS string conversion of a template hole holding `shape[axis]`. -/
def jsToString (v : Option Nat) : String :=
  match v with
  | none => "undefined"
  | some n => toString n

/-- Modelled from the spec: `ShapeUtil.size` (`util.js` is not among the sources), the total element
count of a shape, the product of its dimensions. -/
def ShapeUtil.size (dims : List Nat) : Nat := dims.prod

/-- Modelled from the spec: the JS number that `ShapeUtil.size` returns (`util.js` is not among the
sources), the total element count accumulated as `size *= dims[i]` from `1` in double arithmetic. -/
def ShapeUtil.sizeNumber (dims : List Nat) : JSNumber :=
  dims.foldl jsMul (some 1)

/-- Attributes of the softmax operator as produced by `parseSoftmaxAttributes`: the `axis` and the
cache key that `createAttributeWithCacheKey` attached. -/
structure SoftmaxAttributes where
  axis : Int
  cacheKey : String
deriving DecidableEq, Repr

/-- One entry of a program's `outputs`. -/
structure TensorInfo where
  dims : List Nat
  dataType : Nat
  gpuDataType : GpuDataType
deriving DecidableEq, Repr

/-- The value of `dispatchGroup()`. -/
structure DispatchGroup where
  x : JSNumber
deriving DecidableEq

/-- The program descriptor returned by a generator; `H` is the type of the shader helper handed to
`getShaderSource`. -/
structure ProgramInfo (H : Type) where
  name : String
  inputTypes : List GpuDataType
  cacheHint : Option String
  outputs : List TensorInfo
  getShaderSource : H → String
  dispatchGroup : Unit → DispatchGroup

/-- The lazy loader handed to `context.compute`: metadata plus the closure `get`. -/
structure ProgramInfoLoader (H : Type) where
  name : String
  inputTypes : List GpuDataType
  cacheHint : Option String
  get : Unit → Except String (ProgramInfo H)

/-- `validateInputs`: exactly one input, of data type float. -/
def validateInputs (inputs : Option (List TensorView)) : Except String Unit :=
  match inputs with
  | none => .error "Softmax op requires 1 input."
  | some [x] =>
    if x.dataType ≠ 1 then .error "Softmax input needs to be float." else .ok ()
  | some _ => .error "Softmax op requires 1 input."

/-- Name of the program, from `softmaxProgramMetadata`. -/
def softmaxProgramMetadata.name : String := "Softmax"

/-- Input type signature, from `softmaxProgramMetadata`. -/
def softmaxProgramMetadata.inputTypes : List GpuDataType := [GpuDataType.default]

/-- The constant `WG`, the workgroup size. -/
def WG : Nat := 64

/-- The constant `dataType` of `createSoftmaxProgramInfo`. -/
def dataType : String := "f32"

/-- The template of `getShaderSource` up to the first hole `cols`. -/
def shaderSourceHead : String :=
  String.intercalate "\n" [
    "",
    "      var<workgroup> rowMaxShared : " ++ dataType ++ ";",
    "      var<workgroup> rowSumShared : " ++ dataType ++ ";",
    "      var<workgroup> threadShared : array<" ++ dataType ++ ", " ++ toString WG ++ ">;",
    "",
    "      @group(0) @binding(0) var<storage, read> x : array<" ++ dataType ++ ">;",
    "      @group(0) @binding(1) var<storage, read_write> result : array<" ++ dataType ++ ">;",
    "",
    "      fn getValue(row: i32, col: i32, row_stride: i32) -> " ++ dataType ++ " \x7b",
    "        let index = row * row_stride + col;",
    "        return x[index];",
    "      \x7d",
    "",
    "      fn setValue(row: i32, col: i32, row_stride: i32, value: " ++ dataType ++ ") \x7b",
    "        let index = row * row_stride + col;",
    "        result[index] = value;",
    "      \x7d",
    "",
    "      @compute @workgroup_size(" ++ toString WG ++ ", 1, 1)",
    "      fn main(@builtin(local_invocation_id) local_id : vec3<u32>, @builtin(global_invocation_id) global_id : vec3u) \x7b",
    "        let gindex = i32(global_id.x);",
    "        let lindex = i32(local_id.x);",
    "        const wg = " ++ toString WG ++ ";",
    "        let row = gindex / wg;",
    "        let cols = "]

/-- The template of `getShaderSource` between the two holes `cols`. -/
def shaderSourceMid : String := ";\n        let row_stride : i32 = "

/-- The template of `getShaderSource` after the second hole `cols`. -/
def shaderSourceTail : String :=
  String.intercalate "\n" [
    ";",
    "",
    "        // find the rows max",
    "        var threadMax = -3.402823e+38f; // 6.2.4 in wgsl spec",
    "        for (var col = lindex; col < cols; col += wg) \x7b",
    "          let value = getValue(row, col, row_stride);",
    "          threadMax = max(threadMax, value);",
    "        \x7d",
    "        if (lindex < cols) \x7b",
    "          threadShared[lindex] = threadMax;",
    "        \x7d",
    "        workgroupBarrier();",
    "",
    "        var reduceSize = min(cols, wg);",
    "        for (var currSize = reduceSize >> 1;  currSize > 0; currSize = reduceSize >> 1) \x7b",
    "          reduceSize = currSize + (reduceSize & 1);",
    "          if (lindex < currSize) \x7b",
    "            threadShared[lindex] = max(threadShared[lindex], threadShared[lindex + reduceSize]);",
    "          \x7d",
    "          workgroupBarrier();",
    "        \x7d",
    "        if (lindex == 0) \x7b",
    "          rowMaxShared = threadShared[0];",
    "        \x7d",
    "        workgroupBarrier();",
    "",
    "        // find the rows sum",
    "        var threadSum = 0.0;",
    "        for (var col = lindex; col < cols; col += wg) \x7b",
    "          let subExp = exp(getValue(row, col, row_stride) - rowMaxShared);",
    "          threadSum += subExp;",
    "        \x7d",
    "        threadShared[lindex] = threadSum;",
    "        workgroupBarrier();",
    "",
    "        for (var currSize = wg >> 1;  currSize > 0; currSize = currSize >> 1) \x7b",
    "          if (lindex < currSize) \x7b",
    "            threadShared[lindex] = threadShared[lindex] + threadShared[lindex + currSize];",
    "          \x7d",
    "          workgroupBarrier();",
    "        \x7d",
    "        if (lindex == 0) \x7b",
    "          rowSumShared = threadShared[0];",
    "        \x7d",
    "        workgroupBarrier();",
    "",
    "        // calculate final value for each element in the row",
    "        for (var col = lindex; col < cols; col += wg) \x7b",
    "          let value = exp(getValue(row, col, row_stride) - rowMaxShared) / rowSumShared;",
    "          setValue(row, col, row_stride, value);",
    "        \x7d",
    "      \x7d"]

/-- The text produced by `getShaderSource`, with `colsText` the text that fills the two holes
`cols` of the template. -/
def shaderSourceText (colsText : String) : String :=
  shaderSourceHead ++ colsText ++ shaderSourceMid ++ colsText ++ shaderSourceTail

/-- The axis after `if (axis < 0) axis = shape.length + axis`. -/
def normalizeAxis (shape : List Nat) (axis : Int) : Int :=
  if axis < 0 then (shape.length : Int) + axis else axis

/-- The element `shape[axis]` of a JS array: `undefined` (`none`) outside the index range. -/
def jsIndex (shape : List Nat) (axis : Int) : Option Nat :=
  if 0 ≤ axis then shape[axis.toNat]? else none

/-- `createSoftmaxProgramInfo`: throws when the normalized axis is below `shape.length - 1`,
otherwise builds the descriptor with `cols = shape[axis]` and `rows = outputSize / cols`. -/
def createSoftmaxProgramInfo (H : Type) (input : TensorView) (attributes : SoftmaxAttributes) :
    Except String (ProgramInfo H) :=
  let shape := input.dims
  let outputSize := ShapeUtil.sizeNumber shape
  let axis := normalizeAxis shape attributes.axis
  if axis < (shape.length : Int) - 1 then
    .error "softmax only supports last axis for now."
  else
    let cols := jsIndex shape axis
    let rows := jsDiv outputSize cols
    .ok {
      name := softmaxProgramMetadata.name
      inputTypes := softmaxProgramMetadata.inputTypes
      cacheHint := none
      outputs := [{ dims := shape, dataType := input.dataType, gpuDataType := GpuDataType.default }]
      getShaderSource := fun _shaderHelper => shaderSourceText (jsToString cols)
      dispatchGroup := fun _ => { x := rows } }

/-- The compute context seen by an operator entry point: its inputs and its `compute` method, a
transformer of the executor state `σ` that may throw. An exception leaves the state reached so far,
so a call results in a pair. -/
structure ComputeContext (H σ : Type) where
  inputs : Option (List TensorView)
  compute : ProgramInfoLoader H → σ → Except String Unit × σ

/-- The object literal that `softmax` hands to `context.compute`: the metadata, the cache hint and
the closure `get`, which reads `context.inputs[0]` when it is called. -/
def softmaxLoader (H : Type) (inputs : Option (List TensorView)) (attributes : SoftmaxAttributes) :
    ProgramInfoLoader H :=
  { name := softmaxProgramMetadata.name
    inputTypes := softmaxProgramMetadata.inputTypes
    cacheHint := some attributes.cacheKey
    get := fun _ =>
      match inputs with
      | some (x :: _) => createSoftmaxProgramInfo H x attributes
      | _ => .error "TypeError: context.inputs[0] is undefined" }

/-- The entry point `softmax`: validate the inputs, then hand the lazy loader to
`context.compute`. -/
def softmax {H σ : Type} (context : ComputeContext H σ) (attributes : SoftmaxAttributes)
    (s : σ) : Except String Unit × σ :=
  match validateInputs context.inputs with
  | .error e => (.error e, s)
  | .ok _ => context.compute (softmaxLoader H context.inputs attributes) s

/-- Modelled from the spec: `context.compute` of the host executor (not among the sources), which
registers one compute dispatch against the context. The state is the list of registered
dispatches. -/
def registerDispatch {H : Type} (program : ProgramInfoLoader H)
    (dispatches : List (ProgramInfoLoader H)) : Except String Unit × List (ProgramInfoLoader H) :=
  (.ok (), dispatches ++ [program])

/-- A context whose `compute` registers the dispatch. -/
def registeringContext (H : Type) (inputs : Option (List TensorView)) :
    ComputeContext H (List (ProgramInfoLoader H)) :=
  { inputs := inputs, compute := registerDispatch }

/-! ## The generated kernel

The WGSL program of `getShaderSource`, for one workgroup. Values of type `i32` are integers kept in
range by `wrapI32`; tensor elements live in an ordered field `α` (the rationals hold every finite
`f32`; the reals carry `exp`), so `max`, `+`, `-` and `/` are exact; `exp` is a parameter. The
storage buffers are functions of the `i32` index. Between two `workgroupBarrier()` calls every
invocation reads the workgroup memory as the last barrier left it and stores to its own slot only.
Loops that need not terminate take fuel and return `none` when it runs out. -/

/-- Wrap an integer to the `i32` range, as WGSL integer arithmetic does. -/
def wrapI32 (n : Int) : Int := (n + 2147483648) % 4294967296 - 2147483648

/-- The conversion `i32(u)` of a `u32` value: the same bits. -/
def i32OfU32 (u : Nat) : Int := wrapI32 ((u % 4294967296 : Nat) : Int)

/-- The builtin `global_invocation_id.x` of invocation `local_id_x` of workgroup `workgroup_id_x`,
for the workgroup size `WG`. -/
def globalIdX (workgroup_id_x local_id_x : Nat) : Nat :=
  (workgroup_id_x * WG + local_id_x) % 4294967296

/-- The local `row` of an invocation: `let gindex = i32(global_id.x); let row = gindex / wg;`, with
the truncating division of `i32`. -/
def invocationRow (workgroup_id_x local_id_x : Nat) : Int :=
  Int.tdiv (i32OfU32 (globalIdX workgroup_id_x local_id_x)) (WG : Int)

/-- The `index` of `getValue` and `setValue`: `row * row_stride + col` in `i32`. -/
def flatIndex (row col row_stride : Int) : Int :=
  wrapI32 (wrapI32 (row * row_stride) + col)

/-- The function `getValue` of the shader. -/
def getValue {α : Type} (x : Int → α) (row col row_stride : Int) : α :=
  x (flatIndex row col row_stride)

/-- The function `setValue` of the shader, on the list of stores made to `result` so far. -/
def setValue {α : Type} (result : List (Int × α)) (row col row_stride : Int) (value : α) :
    List (Int × α) :=
  result ++ [(flatIndex row col row_stride, value)]

/-- The loop `for (var col = lindex; col < cols; col += wg) body`, started at `col` with the
loop-carried state `s`. -/
def stridedFor {σ : Type} (fuel : Nat) (cols : Nat) (body : σ → Int → σ) (col : Int) (s : σ) :
    Option σ :=
  match fuel with
  | 0 => none
  | fuel + 1 =>
    if col < (cols : Int) then stridedFor fuel cols body (wrapI32 (col + (WG : Int))) (body s col)
    else some s

/-- The workgroup variables. -/
structure Workgroup (α : Type) where
  threadShared : Nat → α
  rowMaxShared : α
  rowSumShared : α

/-- Run the same barrier-free code in the 64 invocations, each yielding a value; `none` when one of
them does not finish. -/
def runAll {β : Type} (f : Nat → Option β) (d : β) : Option (Nat → β) :=
  if (List.range WG).all (fun lindex => (f lindex).isSome) then
    some (fun lindex => (f lindex).getD d)
  else none

/-- The workgroup memory after every invocation `lindex < 64` has executed its store
`threadShared[lindex] = v`, if it has one (`store lindex = some v`). -/
def storeAll {α : Type} (threadShared : Nat → α) (store : Nat → Option α) : Nat → α :=
  fun i => if i < WG then (store i).getD (threadShared i) else threadShared i

/-- Specification: the columns `c, c + 64, c + 128, ...` below `cols`, the columns a strided loop
started at `c` runs its body on when its counter does not overflow. -/
def strideCols (cols c : Nat) : List Nat :=
  (List.range ((cols + 63 - c) / 64)).map fun k => c + 64 * k

section Kernel

variable {α : Type} [LinearOrderedField α]

/-- The initial value `-3.402823e+38f` of `threadMax`, as the decimal it is written as. (The `f32`
nearest to it is `-16777213 * 2^104`; the lowest finite `f32` is `-16777215 * 2^104`.) -/
def threadMaxInit : α := -(3402823 * 10 ^ 32)

/-- The reduction loop of phase 1,
`for (var currSize = reduceSize >> 1; currSize > 0; currSize = reduceSize >> 1)`, with the barrier
after every round. -/
def maxReduce (reduceSize : Nat) (threadShared : Nat → α) : Nat → α :=
  if 0 < reduceSize >>> 1 then
    maxReduce (reduceSize >>> 1 + (reduceSize &&& 1))
      (storeAll threadShared fun lindex =>
        if lindex < reduceSize >>> 1 then
          some (max (threadShared lindex)
            (threadShared (lindex + (reduceSize >>> 1 + (reduceSize &&& 1)))))
        else none)
  else threadShared
termination_by reduceSize
decreasing_by
  rw [Nat.and_one_is_mod, Nat.shiftRight_eq_div_pow] at *
  omega

/-- The reduction loop of phase 2,
`for (var currSize = wg >> 1; currSize > 0; currSize = currSize >> 1)`, with the barrier after
every round. -/
def sumReduce (currSize : Nat) (threadShared : Nat → α) : Nat → α :=
  if 0 < currSize then
    sumReduce (currSize >>> 1)
      (storeAll threadShared fun lindex =>
        if lindex < currSize then
          some (threadShared lindex + threadShared (lindex + currSize))
        else none)
  else threadShared
termination_by currSize
decreasing_by
  rw [Nat.shiftRight_eq_div_pow]
  omega

/-- Phase 1, "find the rows max": the strided maxima, the conditional store, the reduction and the
publication of `rowMaxShared` by invocation 0. `row lindex` is the local `row` of invocation
`lindex`. -/
def phase1 (fuel : Nat) (cols : Nat) (x : Int → α) (row : Nat → Int) (wg : Workgroup α) :
    Option (Workgroup α) :=
  (runAll (fun lindex =>
      stridedFor fuel cols
        (fun threadMax col => max threadMax (getValue x (row lindex) col cols))
        lindex threadMaxInit) threadMaxInit).map fun threadMax =>
    let threadShared := storeAll wg.threadShared fun lindex =>
      if lindex < cols then some (threadMax lindex) else none
    let threadShared := maxReduce (min cols WG) threadShared
    { wg with threadShared := threadShared, rowMaxShared := threadShared 0 }

/-- Phase 2, "find the rows sum": the strided sums of `exp(value - rowMaxShared)`, the store by
every invocation, the halving reduction and the publication of `rowSumShared`. -/
def phase2 (fuel : Nat) (exp : α → α) (cols : Nat) (x : Int → α) (row : Nat → Int)
    (wg : Workgroup α) : Option (Workgroup α) :=
  (runAll (fun lindex =>
      stridedFor fuel cols
        (fun threadSum col => threadSum + exp (getValue x (row lindex) col cols - wg.rowMaxShared))
        lindex 0) 0).map fun threadSum =>
    let threadShared := storeAll wg.threadShared fun lindex => some (threadSum lindex)
    let threadShared := sumReduce (WG >>> 1) threadShared
    { wg with threadShared := threadShared, rowSumShared := threadShared 0 }

/-- Phase 3, "calculate final value for each element in the row": the stores to `result`, listed
invocation by invocation. -/
def phase3 (fuel : Nat) (exp : α → α) (cols : Nat) (x : Int → α) (row : Nat → Int)
    (wg : Workgroup α) : Option (List (Int × α)) :=
  (runAll (fun lindex =>
      stridedFor fuel cols
        (fun result col =>
          setValue result (row lindex) col cols
            (exp (getValue x (row lindex) col cols - wg.rowMaxShared) / wg.rowSumShared))
        lindex []) []).map fun result =>
    (List.range WG).flatMap result

/-- The three phases in sequence, from zero-initialised workgroup memory. -/
def softmaxKernel (fuel : Nat) (exp : α → α) (cols : Nat) (x : Int → α) (row : Nat → Int) :
    Option (List (Int × α)) :=
  (phase1 fuel cols x row ⟨fun _ => 0, 0, 0⟩).bind fun wg =>
    (phase2 fuel exp cols x row wg).bind fun wg =>
      phase3 fuel exp cols x row wg

/-- The entry point `main` of the shader for workgroup `workgroup_id_x`: the stores it makes to
`result`. -/
def main (fuel : Nat) (exp : α → α) (cols : Nat) (x : Int → α) (workgroup_id_x : Nat) :
    Option (List (Int × α)) :=
  softmaxKernel fuel exp cols x (invocationRow workgroup_id_x)

/-- Specification: the value `m` is the greatest of the first `n` slots of `threadShared`. -/
def IsMaxOn (threadShared : Nat → α) (n : Nat) (m : α) : Prop :=
  (∀ i, i < n → threadShared i ≤ m) ∧ ∃ i, i < n ∧ threadShared i = m

/-- The value the kernel reads for column `c`: `getValue(row, c, row_stride)` as evaluated by the
invocation `c % 64`, the one whose strided loops reach `c`. -/
def columnValue (cols : Nat) (x : Int → α) (row : Nat → Int) (c : Nat) : α :=
  getValue x (row (c % 64)) (c : Int) (cols : Int)

end Kernel

section RoundsDefs

variable {α : Type} [LinearOrderedField α]

/-- Specification: the rounds of the reduction loop of phase 1 started with `reduceSize`, each as
the pair of `currSize` and the value `reduceSize` holds inside the body, after
`reduceSize = currSize + (reduceSize & 1)`. -/
def maxReduceRounds (reduceSize : Nat) : List (Nat × Nat) :=
  if 0 < reduceSize >>> 1 then
    (reduceSize >>> 1, reduceSize >>> 1 + (reduceSize &&& 1)) ::
      maxReduceRounds (reduceSize >>> 1 + (reduceSize &&& 1))
  else []
termination_by reduceSize
decreasing_by
  rw [Nat.and_one_is_mod, Nat.shiftRight_eq_div_pow] at *
  omega

/-- One round of the phase-1 reduction: the body of the loop for `currSize` and the updated
`reduceSize`, followed by the barrier. -/
def maxReduceRound (threadShared : Nat → α) (round : Nat × Nat) : Nat → α :=
  storeAll threadShared fun lindex =>
    if lindex < round.1 then
      some (max (threadShared lindex) (threadShared (lindex + round.2)))
    else none

/-- Specification: the values of `currSize` in the rounds of the reduction loop of phase 2 started
with `currSize`. -/
def sumReduceRounds (currSize : Nat) : List Nat :=
  if 0 < currSize then currSize :: sumReduceRounds (currSize >>> 1) else []
termination_by currSize
decreasing_by
  rw [Nat.shiftRight_eq_div_pow]
  omega

/-- One round of the phase-2 reduction, followed by the barrier. -/
def sumReduceRound (threadShared : Nat → α) (currSize : Nat) : Nat → α :=
  storeAll threadShared fun lindex =>
    if lindex < currSize then
      some (threadShared lindex + threadShared (lindex + currSize))
    else none

end RoundsDefs

/-! ## Grouped convolution (`jsep/webgpu/ops/conv-grouped.js`): host side -/

/-- Attributes of the convolution as parsed upstream. The fused activation is read only by
`getActicationSnippet`. -/
structure ConvAttributes where
  group : Nat
  strides : List Nat
  pads : List Nat
  dilations : List Nat
  format : String
  cacheKey : String
deriving DecidableEq, Repr

/-- The metadata record of a program: name, input type signature and cache hint. -/
structure ProgramMetadata where
  name : String
  inputTypes : List GpuDataType
  cacheHint : String
deriving DecidableEq, Repr

/-- Modelled from the spec: a variable of the shader as `inputVariable` and `outputVariable` of
`common.js` (not among the sources) build it, with the snippet generators the template calls:
`offsetToIndices`, `get`, `setByOffset` and `type.value`. -/
structure IndicesHelper where
  name : String
  dataType : Nat
  dims : List Nat
  offsetToIndices : String → String
  get : List String → String
  setByOffset : String → String → String
  typeValue : String

/-- The shader helper handed to `getShaderSource`, with the three capabilities the template
uses. -/
structure ShaderHelper where
  declareVariables : List IndicesHelper → String
  mainStart : Unit → String
  guardAgainstOutOfBoundsWorkgroupSizes : Nat → String

/-- What `createGroupedConvProgramInfo` calls that is not among the sources: `inputVariable` and
`outputVariable` of `common.js`, `getActicationSnippet` of `fuse-utils.js` (the pair
`activationFunction`, `applyActivation`), and the conversion of a JS number to text in a template
literal. -/
structure GroupedConvEnv where
  inputVariable : String → Nat → List Nat → IndicesHelper
  outputVariable : String → Nat → List Nat → IndicesHelper
  getActicationSnippet : ConvAttributes → String × String
  numberToString : JSNumber → String

/-- JS `a / b` of two numbers that may be `undefined`. -/
def jsQuotient (a : Option Nat) (b : Nat) : JSNumber :=
  match a with
  | none => none
  | some a => jsDiv (some (a : ℚ)) (some b)

/-- Modelled from the spec: one spatial size of the output,
`floor((inputSize + padBefore + padAfter - dilation*(kernelSize-1) - 1) / stride) + 1`. -/
def convOutputSize (inputSize padBefore padAfter dilation kernelSize stride : Nat) : Nat :=
  ((((inputSize : Int) + padBefore + padAfter - dilation * ((kernelSize : Int) - 1) - 1) /
    (stride : Int)) + 1).toNat

/-- Modelled from the spec: `calculateOutputShape` of `conv.js` (not among the sources). The
output has the batch size of the input, the output channels of the kernel and, per spatial
dimension, the size given by the output-size formula, with the pads before at `pads[i]` and the
pads after at `pads[i + 2]`; the channels come last or second according to the format. -/
def calculateOutputShape (inputShape kernelShape dilations adjustPads strides : List Nat)
    (isChannelLast : Bool) : List Nat :=
  let batchSize := inputShape.getD 0 0
  let outChannels := kernelShape.getD 0 0
  let height := convOutputSize (inputShape.getD (if isChannelLast then 1 else 2) 0)
    (adjustPads.getD 0 0) (adjustPads.getD 2 0) (dilations.getD 0 0) (kernelShape.getD 2 0)
    (strides.getD 0 0)
  let width := convOutputSize (inputShape.getD (if isChannelLast then 2 else 3) 0)
    (adjustPads.getD 1 0) (adjustPads.getD 3 0) (dilations.getD 1 0) (kernelShape.getD 3 0)
    (strides.getD 1 0)
  if isChannelLast then [batchSize, height, width, outChannels]
  else [batchSize, outChannels, height, width]

/-- `createGroupedConvProgramMetadata`. -/
def createGroupedConvProgramMetadata (hasBias : Bool) (cacheHint : String) : ProgramMetadata :=
  { name := "GroupedConv"
    inputTypes :=
      if hasBias then [GpuDataType.default, GpuDataType.default, GpuDataType.default]
      else [GpuDataType.default, GpuDataType.default]
    cacheHint := cacheHint }

/-- The list `inputVars` of `createGroupedConvProgramInfo`: `x`, `w` and, with a bias, `b`. -/
def groupedConvInputVars (env : GroupedConvEnv) (x w : TensorView) (bias : Option TensorView) :
    List IndicesHelper :=
  [env.inputVariable "x" x.dataType x.dims, env.inputVariable "w" w.dataType w.dims] ++
    match bias with
    | some b => [env.inputVariable "b" b.dataType b.dims]
    | none => []

/-- JS `Math.ceil` of a finite number. -/
def mathCeil (q : ℚ) : JSNumber := some ((⌈q⌉ : Int) : ℚ)

/-- The closure `dispatchGroup` of the grouped-convolution descriptor:
`x: Math.ceil(outputSize / 64)`; the quotient of a count by the power of two `64` is a double, so
no rounding takes place. -/
def groupedConvDispatchGroup (outputSize : Nat) : DispatchGroup :=
  { x := mathCeil ((outputSize : ℚ) / 64) }

/-- The text produced by `getShaderSource` of `createGroupedConvProgramInfo`. -/
def groupedConvShaderSource (env : GroupedConvEnv) (attributes : ConvAttributes)
    (xShape wShape : List Nat) (inputVars : List IndicesHelper) (x w output : IndicesHelper)
    (isChannelLast : Bool) (outputSize : Nat) (outputChannelsPerGroup : JSNumber)
    (processBias : String) (shaderHelper : ShaderHelper) : String :=
  "\n" ++
    "  const strides: vec2<u32> = vec2(" ++
    (jsToString attributes.strides[0]?) ++
    "u, " ++
    (jsToString attributes.strides[1]?) ++
    "u);\n" ++
    "  const pads: vec2<u32> = vec2(" ++
    (jsToString attributes.pads[0]?) ++
    "u, " ++
    (jsToString attributes.pads[1]?) ++
    "u);\n" ++
    "\n" ++
    "  " ++
    (shaderHelper.declareVariables (inputVars ++ [output])) ++
    "\n" ++
    "\n" ++
    "  " ++
    ((env.getActicationSnippet attributes).1) ++
    "\n" ++
    "\n" ++
    "  " ++
    (shaderHelper.mainStart ()) ++
    "\n" ++
    "    " ++
    (shaderHelper.guardAgainstOutOfBoundsWorkgroupSizes outputSize) ++
    "\n" ++
    "\n" ++
    "    let outputIndices = " ++
    (output.offsetToIndices "global_idx") ++
    ";\n" ++
    "    let batch: u32 = outputIndices[0];\n" ++
    "    let output_channel: u32 = outputIndices[" ++
    ((if isChannelLast then "3" else "1")) ++
    "];\n" ++
    "    let xRCCorner: vec2<u32> = vec2<u32>(outputIndices[" ++
    ((if isChannelLast then "1" else "2")) ++
    "], outputIndices[" ++
    ((if isChannelLast then "2" else "3")) ++
    "]) * strides - pads;\n" ++
    "    let group_id: u32 = output_channel / " ++
    (env.numberToString outputChannelsPerGroup) ++
    "u;\n" ++
    "\n" ++
    "    var value: " ++
    (output.typeValue) ++
    " = " ++
    (output.typeValue) ++
    "(0);\n" ++
    "    for (var wInChannel: u32 = 0u; wInChannel < " ++
    (jsToString wShape[1]?) ++
    "u; wInChannel++) \x7b\n" ++
    "      let input_channel = group_id * " ++
    (jsToString wShape[1]?) ++
    "u + wInChannel;\n" ++
    "      for (var wHeight: u32 = 0u; wHeight < " ++
    (jsToString wShape[2]?) ++
    "u; wHeight++) \x7b\n" ++
    "        let xHeight = xRCCorner.x + wHeight * " ++
    (jsToString attributes.dilations[0]?) ++
    "u;\n" ++
    "\n" ++
    "        if (xHeight < 0u || xHeight >= " ++
    (jsToString xShape[if isChannelLast then 1 else 2]?) ++
    "u) \x7b\n" ++
    "          continue;\n" ++
    "        \x7d\n" ++
    "\n" ++
    "        for (var wWidth: u32 = 0u; wWidth < " ++
    (jsToString wShape[3]?) ++
    "u; wWidth++) \x7b\n" ++
    "          let xWidth = xRCCorner.y + wWidth * " ++
    (jsToString attributes.dilations[1]?) ++
    "u;\n" ++
    "          if (xWidth < 0u || xWidth >= " ++
    (jsToString xShape[if isChannelLast then 2 else 3]?) ++
    "u) \x7b\n" ++
    "            continue;\n" ++
    "          \x7d\n" ++
    "\n" ++
    "          let xVal = " ++
    (if isChannelLast then x.get ["batch", "xHeight", "xWidth", "input_channel"]
      else x.get ["batch", "input_channel", "xHeight", "xWidth"]) ++
    ";\n" ++
    "          let wVal = " ++
    (w.get ["output_channel", "wInChannel", "wHeight", "wWidth"]) ++
    ";\n" ++
    "          value += xVal*wVal;\n" ++
    "        \x7d\n" ++
    "      \x7d\n" ++
    "    \x7d\n" ++
    "    " ++
    (processBias) ++
    "\n" ++
    "    " ++
    ((env.getActicationSnippet attributes).2) ++
    "\n" ++
    "    " ++
    (output.setByOffset "global_idx" "value") ++
    "\n" ++
    "  \x7d"

/-- `createGroupedConvProgramInfo`: it throws only on reading `dims` of a missing input. -/
def createGroupedConvProgramInfo (env : GroupedConvEnv) (inputs : List TensorView)
    (metadata : ProgramMetadata) (attributes : ConvAttributes)
    (squeezeOutputShapeFunction : Option (List Nat → List Nat)) :
    Except String (ProgramInfo ShaderHelper) :=
  match inputs with
  | input0 :: input1 :: rest =>
    let hasBias := decide (inputs.length > 2)
    let processBias := if hasBias then "value += b[output_channel];" else ""
    let xShape := input0.dims
    let wShape := input1.dims
    let outputChannelsPerGroup := jsQuotient wShape[0]? attributes.group
    let isChannelLast := decide (attributes.format = "NHWC")
    let outputShape := calculateOutputShape xShape wShape attributes.dilations attributes.pads
      attributes.strides isChannelLast
    let outputSize := ShapeUtil.size outputShape
    let output := env.outputVariable "output" input0.dataType outputShape
    let x := env.inputVariable "x" input0.dataType xShape
    let w := env.inputVariable "w" input1.dataType wShape
    let inputVars := groupedConvInputVars env input0 input1 rest.head?
    .ok {
      name := metadata.name
      inputTypes := metadata.inputTypes
      cacheHint := some metadata.cacheHint
      outputs := [{
        dims := match squeezeOutputShapeFunction with
          | some squeeze => squeeze outputShape
          | none => outputShape
        dataType := input0.dataType
        gpuDataType := GpuDataType.default }]
      getShaderSource := groupedConvShaderSource env attributes xShape wShape inputVars x w output
        isChannelLast outputSize outputChannelsPerGroup processBias
      dispatchGroup := fun _ => groupedConvDispatchGroup outputSize }
  | _ => .error "TypeError: Cannot read properties of undefined (reading 'dims')"

/-- `createGroupedConvProgramInfoLoader`: the metadata and the closure `get`. -/
def createGroupedConvProgramInfoLoader (env : GroupedConvEnv) (inputs : List TensorView)
    (attributes : ConvAttributes) (squeezeOutputShapeFunction : Option (List Nat → List Nat)) :
    ProgramInfoLoader ShaderHelper :=
  let metadata := createGroupedConvProgramMetadata (decide (inputs.length > 2)) attributes.cacheKey
  { name := metadata.name
    inputTypes := metadata.inputTypes
    cacheHint := some metadata.cacheHint
    get := fun _ =>
      createGroupedConvProgramInfo env inputs metadata attributes squeezeOutputShapeFunction }

/-! ## Grouped convolution: the generated kernel

The WGSL program of `getShaderSource`, for one invocation `global_idx`. Values of type `u32` are
naturals kept in range by `wrapU32`; tensor elements live in a commutative ring `α` with exact
arithmetic; the fused activation is a function `activation` (the identity when none is
configured). A tensor is the function from flat offsets to elements. The snippets of `common.js`
are modelled from the spec: row-major `offsetToIndices` and `indicesToOffset`, and the guard that
returns when `global_idx` is not below the output size. -/

/-- Wrap an integer to the `u32` range, as WGSL unsigned arithmetic does. -/
def wrapU32 (n : Int) : Nat := (n % 4294967296).toNat

/-- Modelled from the spec: `offsetToIndices`, the coordinates of a flat offset under row-major
flattening over `dims`. -/
def offsetToIndices (dims : List Nat) (offset : Nat) : List Nat :=
  match dims with
  | [] => []
  | _ :: rest => (offset / rest.prod) :: offsetToIndices rest (offset % rest.prod)

/-- Modelled from the spec: `indicesToOffset`, the flat offset of coordinates under row-major
flattening over `dims`; this is the address `get` reads. -/
def indicesToOffset (dims indices : List Nat) : Nat :=
  match dims, indices with
  | _ :: rest, i :: indices => i * rest.prod + indicesToOffset rest indices
  | _, _ => 0

/-- The `u32` value of `xHeight` (or `xWidth`): the component of
`xRCCorner = outputIndices * strides - pads` plus `kernelOffset * dilation`. -/
def inputCoordinate (outputIndex stride pad kernelOffset dilation : Nat) : Nat :=
  let corner := wrapU32 ((wrapU32 ((outputIndex : Int) * stride) : Int) - pad)
  wrapU32 ((corner : Int) + (wrapU32 ((kernelOffset : Int) * dilation) : Int))

/-- The test `xHeight < 0u || xHeight >= size` that guards `continue`. -/
def skipsTerm (coordinate size : Nat) : Prop := coordinate < 0 ∨ coordinate ≥ size

instance (coordinate size : Nat) : Decidable (skipsTerm coordinate size) := by
  unfold skipsTerm
  infer_instance

/-- The `u32` value of `group_id = output_channel / outputChannelsPerGroup`, where
`outputChannelsPerGroup = wShape[0] / group` is an integer literal. -/
def groupId (output_channel weightOutputChannels group : Nat) : Nat :=
  output_channel / (weightOutputChannels / group)

/-- The `u32` value of `input_channel = group_id * wShape[1] + wInChannel`. -/
def inputChannel (group_id weightInputChannels wInChannel : Nat) : Nat :=
  wrapU32 ((wrapU32 ((group_id : Int) * weightInputChannels) : Int) + wInChannel)

/-- The value an invocation stores with `output.setByOffset(global_idx, value)`, or `none` when it
stores nothing: the guard returned, or the shapes and attributes do not give a well-formed shader
(shapes not of rank 4, a missing stride, pad or dilation, or `wShape[0] / group` not a positive
integer literal). -/
def groupedConvMain {α : Type} [CommRing α] (xShape wShape : List Nat)
    (attributes : ConvAttributes) (hasBias : Bool) (activation : α → α) (x w b : Nat → α)
    (global_idx : Nat) : Option (Nat × α) :=
  match xShape, wShape, attributes.strides, attributes.pads, attributes.dilations with
  | [_, _, _, _], [w0, w1, w2, w3], s0 :: s1 :: _, p0 :: p1 :: _, d0 :: d1 :: _ =>
    let isChannelLast := decide (attributes.format = "NHWC")
    let outputShape := calculateOutputShape xShape wShape attributes.dilations attributes.pads
      attributes.strides isChannelLast
    if attributes.group = 0 ∨ w0 % attributes.group ≠ 0 then none
    else if global_idx ≥ ShapeUtil.size outputShape then none
    else
      let outputIndices := offsetToIndices outputShape global_idx
      let batch := outputIndices.getD 0 0
      let output_channel := outputIndices.getD (if isChannelLast then 3 else 1) 0
      let outputRow := outputIndices.getD (if isChannelLast then 1 else 2) 0
      let outputCol := outputIndices.getD (if isChannelLast then 2 else 3) 0
      let group_id := groupId output_channel w0 attributes.group
      let value := (List.range w1).foldl (fun value wInChannel =>
        let input_channel := inputChannel group_id w1 wInChannel
        (List.range w2).foldl (fun value wHeight =>
          let xHeight := inputCoordinate outputRow s0 p0 wHeight d0
          if skipsTerm xHeight (xShape.getD (if isChannelLast then 1 else 2) 0) then value
          else
            (List.range w3).foldl (fun value wWidth =>
              let xWidth := inputCoordinate outputCol s1 p1 wWidth d1
              if skipsTerm xWidth (xShape.getD (if isChannelLast then 2 else 3) 0) then value
              else
                let xVal := x (indicesToOffset xShape
                  (if isChannelLast then [batch, xHeight, xWidth, input_channel]
                   else [batch, input_channel, xHeight, xWidth]))
                let wVal := w (indicesToOffset wShape
                  [output_channel, wInChannel, wHeight, wWidth])
                value + xVal * wVal) value) value) 0
      let value := if hasBias then value + b output_channel else value
      let value := activation value
      some (global_idx, value)
  | _, _, _, _, _ => none

/-- Specification: the convolution value of the claim for the output coordinate
`(batch, oc, oh, ow)`: the activation of the bias (0 when absent) plus the sum over
`wInChannel`, `kh`, `kw` of `x[batch, g * w1 + wInChannel, th, tw] * w[oc, wInChannel, kh, kw]`,
with `g = oc div (w0 / group)`, `th = oh * s0 - p0 + kh * d0`, `tw = ow * s1 - p1 + kw * d1` as
integers, a term with `th` or `tw` out of range counting as 0. -/
def groupedConvReference {α : Type} [CommRing α] (xShape wShape : List Nat)
    (attributes : ConvAttributes) (hasBias : Bool) (activation : α → α) (x w b : Nat → α)
    (batch oc oh ow : Nat) : α :=
  let isChannelLast := decide (attributes.format = "NHWC")
  let w0 := wShape.getD 0 0
  let w1 := wShape.getD 1 0
  let inputHeight := xShape.getD (if isChannelLast then 1 else 2) 0
  let inputWidth := xShape.getD (if isChannelLast then 2 else 3) 0
  let g := oc / (w0 / attributes.group)
  activation ((if hasBias then b oc else 0) +
    ∑ wInChannel in Finset.range w1, ∑ kh in Finset.range (wShape.getD 2 0),
      ∑ kw in Finset.range (wShape.getD 3 0),
        let th : Int := (oh : Int) * attributes.strides.getD 0 0 - attributes.pads.getD 0 0 +
          (kh : Int) * attributes.dilations.getD 0 0
        let tw : Int := (ow : Int) * attributes.strides.getD 1 0 - attributes.pads.getD 1 0 +
          (kw : Int) * attributes.dilations.getD 1 0
        if 0 ≤ th ∧ th < inputHeight ∧ 0 ≤ tw ∧ tw < inputWidth then
          x (indicesToOffset xShape
            (if isChannelLast then [batch, th.toNat, tw.toNat, g * w1 + wInChannel]
             else [batch, g * w1 + wInChannel, th.toNat, tw.toNat])) *
          w (indicesToOffset wShape [oc, wInChannel, kh, kw])
        else 0)

/-- A helper environment for examples: variables that carry their name, type and dims and
generate empty snippets. -/
def exampleEnv : GroupedConvEnv :=
  { inputVariable := fun name dataType dims =>
      ⟨name, dataType, dims, fun _ => "", fun _ => "", fun _ _ => "", ""⟩
    outputVariable := fun name dataType dims =>
      ⟨name, dataType, dims, fun _ => "", fun _ => "", fun _ _ => "", ""⟩
    getActicationSnippet := fun _ => ("", "")
    numberToString := fun _ => "" }

/-! ## Host side: facts -/

theorem createSoftmaxProgramInfo_error_iff (H : Type) (input : TensorView)
    (attributes : SoftmaxAttributes) :
    (∃ e, createSoftmaxProgramInfo H input attributes = .error e) ↔
      normalizeAxis input.dims attributes.axis < (input.dims.length : Int) - 1 := by
  unfold createSoftmaxProgramInfo
  by_cases h : normalizeAxis input.dims attributes.axis < (input.dims.length : Int) - 1
  · simp [h]
  · simp [h]

theorem shaderSourceText_data (c : String) :
    (shaderSourceText c).data =
      shaderSourceHead.data ++ (c.data ++ (shaderSourceMid.data ++ (c.data ++ shaderSourceTail.data))) := by
  unfold shaderSourceText
  rw [String.data_append, String.data_append, String.data_append, String.data_append]
  rw [List.append_assoc, List.append_assoc, List.append_assoc]

theorem shaderSourceText_ne_of_head_ne (a b : Char) (t u : String) (hab : a ≠ b) :
    shaderSourceText (String.mk (a :: t.data)) ≠ shaderSourceText (String.mk (b :: u.data)) := by
  intro h
  have h1 := congrArg String.data h
  rw [shaderSourceText_data, shaderSourceText_data, List.append_right_inj] at h1
  exact hab (List.cons.inj h1).1

theorem softmax_of_error {H σ : Type} (context : ComputeContext H σ)
    (attributes : SoftmaxAttributes) (s : σ) (e : String)
    (hv : validateInputs context.inputs = .error e) :
    softmax context attributes s = (.error e, s) := by
  unfold softmax
  rw [hv]

theorem softmax_of_ok {H σ : Type} (context : ComputeContext H σ)
    (attributes : SoftmaxAttributes) (s : σ) (u : Unit)
    (hv : validateInputs context.inputs = .ok u) :
    softmax context attributes s =
      context.compute (softmaxLoader H context.inputs attributes) s := by
  unfold softmax
  rw [hv]

theorem validateInputs_single (x : TensorView) (hfloat : x.dataType = 1) :
    validateInputs (some [x]) = .ok () := by
  simp [validateInputs, hfloat]

theorem validateInputs_error_iff (inputs : Option (List TensorView)) :
    (∃ e, validateInputs inputs = .error e) ↔
      (inputs = none ∨ ∃ l, inputs = some l ∧ (l.length ≠ 1 ∨ ∃ x, l[0]? = some x ∧ x.dataType ≠ 1)) := by
  rcases inputs with _ | l
  · simp [validateInputs]
  · rcases l with _ | ⟨x, _ | ⟨y, l⟩⟩
    · simp [validateInputs]
    · by_cases hx : x.dataType = 1 <;> simp [validateInputs, hx]
    · simp [validateInputs]

/-- C1 (failing input). On a rank-2 input with `axis = 2` the normalized axis is not `rank - 1`,
yet `createSoftmaxProgramInfo` throws nothing: it returns a descriptor whose shader text has
`undefined` for `cols` and whose dispatch size is not a number. -/
theorem createSoftmaxProgramInfo_accepts_axis_eq_rank :
    normalizeAxis [2, 3] 2 ≠ 2 - 1 ∧
    ∃ info : ProgramInfo Unit,
      createSoftmaxProgramInfo Unit ⟨[2, 3], 1⟩ ⟨2, "2"⟩ = .ok info ∧
      info.getShaderSource () = shaderSourceText "undefined" ∧
      (info.dispatchGroup ()).x = none := by
  refine ⟨by decide, _, rfl, rfl, rfl⟩

/-- C2 (counterexample). For a single float input of shape `[2, 3]` with `axis = 0`, which is not
the last axis, the entry point `softmax` does not fail and `context.compute` is invoked: one
dispatch is registered on a context that had none. -/
theorem softmax_first_axis_registers_dispatch :
    normalizeAxis [2, 3] 0 ≠ 2 - 1 ∧
    (softmax (registeringContext Unit (some [⟨[2, 3], 1⟩])) ⟨0, "0"⟩ []).1 = .ok () ∧
    (softmax (registeringContext Unit (some [⟨[2, 3], 1⟩])) ⟨0, "0"⟩ []).2.length = 1 := by
  refine ⟨by decide, rfl, rfl⟩

/-- C2 (amended). For every context whose single float input has an axis that normalizes below
`rank - 1`, the entry point `softmax` itself raises nothing: whatever `context.compute` is, the call
is exactly one call of `context.compute` on the `Softmax` loader with the attributes' cache key, and
the last-axis error is raised when that loader's `get` is evaluated, which then returns no
descriptor. -/
theorem softmax_defers_axis_check {H σ : Type}
    (compute : ProgramInfoLoader H → σ → Except String Unit × σ)
    (x : TensorView) (attributes : SoftmaxAttributes) (s : σ) (hfloat : x.dataType = 1)
    (haxis : normalizeAxis x.dims attributes.axis < (x.dims.length : Int) - 1) :
    ∃ program : ProgramInfoLoader H,
      softmax { inputs := some [x], compute := compute } attributes s = compute program s ∧
      program.name = "Softmax" ∧ program.cacheHint = some attributes.cacheKey ∧
      program.get () = .error "softmax only supports last axis for now." := by
  refine ⟨softmaxLoader H (some [x]) attributes,
    softmax_of_ok _ attributes s () (validateInputs_single x hfloat), rfl, rfl, ?_⟩
  show createSoftmaxProgramInfo H x attributes = _
  unfold createSoftmaxProgramInfo
  simp only [haxis, if_true]

/-- C2 (witness): a float input of shape `[2, 3]` with `axis = 0`, on the registering context. -/
theorem softmax_defers_axis_check_witness :
    ∃ program : ProgramInfoLoader Unit,
      softmax { inputs := some [⟨[2, 3], 1⟩], compute := registerDispatch } ⟨0, "0"⟩ [] =
        registerDispatch program [] ∧
      program.name = "Softmax" ∧ program.cacheHint = some "0" ∧
      program.get () = .error "softmax only supports last axis for now." :=
  softmax_defers_axis_check registerDispatch ⟨[2, 3], 1⟩ ⟨0, "0"⟩ [] rfl (by decide)

/-- C3. On a context whose `compute` registers the dispatch, `softmax` throws if and only if the
input list is missing, does not have exactly one element, or its element is not of data type float
(tag 1). In that case no context's `compute` is called: the state is returned as it was. Otherwise
`compute` is called exactly once, on a loader named `Softmax` whose cache hint is
`attributes.cacheKey`: the call is that one call, for every `compute`, and on the registering
context exactly one dispatch is added. -/
theorem softmax_throws_iff (H : Type) (inputs : Option (List TensorView))
    (attributes : SoftmaxAttributes) (dispatches : List (ProgramInfoLoader H)) :
    ((∃ e, (softmax (registeringContext H inputs) attributes dispatches).1 = .error e) ↔
      (inputs = none ∨
        ∃ l, inputs = some l ∧ (l.length ≠ 1 ∨ ∃ x, l[0]? = some x ∧ x.dataType ≠ 1))) ∧
    ((∃ e, (softmax (registeringContext H inputs) attributes dispatches).1 = .error e) →
      (softmax (registeringContext H inputs) attributes dispatches).2 = dispatches ∧
      ∀ (σ : Type) (compute : ProgramInfoLoader H → σ → Except String Unit × σ) (s : σ),
        ∃ e, softmax { inputs := inputs, compute := compute } attributes s = (.error e, s)) ∧
    ((softmax (registeringContext H inputs) attributes dispatches).1 = .ok () →
      ∃ program : ProgramInfoLoader H,
        program.name = "Softmax" ∧ program.cacheHint = some attributes.cacheKey ∧
        (softmax (registeringContext H inputs) attributes dispatches).2 = dispatches ++ [program] ∧
        ∀ (σ : Type) (compute : ProgramInfoLoader H → σ → Except String Unit × σ) (s : σ),
          softmax { inputs := inputs, compute := compute } attributes s = compute program s) := by
  have key := validateInputs_error_iff inputs
  cases hv : validateInputs inputs with
  | error e =>
    have hres := softmax_of_error (registeringContext H inputs) attributes dispatches e hv
    refine ⟨⟨fun _ => key.1 ⟨e, hv⟩, fun _ => ⟨e, by rw [hres]⟩⟩, fun _ => ⟨by rw [hres], ?_⟩, ?_⟩
    · intro σ compute s
      exact ⟨e, softmax_of_error { inputs := inputs, compute := compute } attributes s e hv⟩
    · intro hok
      rw [hres] at hok
      cases hok
  | ok u =>
    have hnot : ¬ ∃ e, validateInputs inputs = .error e := by
      rintro ⟨e, he⟩
      rw [hv] at he
      cases he
    have hres := softmax_of_ok (registeringContext H inputs) attributes dispatches u hv
    have hreg : softmax (registeringContext H inputs) attributes dispatches =
        (.ok (), dispatches ++ [softmaxLoader H inputs attributes]) := hres
    refine ⟨⟨fun h => ?_, fun h => absurd (key.2 h) hnot⟩, fun h => ?_, fun _ => ?_⟩
    · obtain ⟨e, he⟩ := h
      rw [hreg] at he
      cases he
    · obtain ⟨e, he⟩ := h
      rw [hreg] at he
      cases he
    · refine ⟨softmaxLoader H inputs attributes, rfl, rfl, by rw [hreg], ?_⟩
      intro σ compute s
      exact softmax_of_ok { inputs := inputs, compute := compute } attributes s u hv

/-! ## The generated kernel: the strided loop -/

theorem wrapI32_of_range (n : Int) (hlo : -2147483648 ≤ n) (hhi : n < 2147483648) :
    wrapI32 n = n := by
  unfold wrapI32
  omega

theorem strideCols_of_lt (cols c : Nat) (h : c < cols) :
    strideCols cols c = c :: strideCols cols (c + 64) := by
  unfold strideCols
  have hn : (cols + 63 - c) / 64 = (cols + 63 - (c + 64)) / 64 + 1 := by omega
  rw [hn, List.range_succ_eq_map, List.map_cons, List.map_map]
  congr 1
  apply List.map_congr_left
  intro k _
  simp only [Function.comp_apply]
  omega

theorem strideCols_of_ge (cols c : Nat) (h : cols ≤ c) : strideCols cols c = [] := by
  unfold strideCols
  have hn : (cols + 63 - c) / 64 = 0 := by omega
  rw [hn]
  rfl

theorem mem_strideCols (cols c k : Nat) :
    k ∈ strideCols cols c ↔ c ≤ k ∧ k < cols ∧ (k - c) % 64 = 0 := by
  unfold strideCols
  simp only [List.mem_map, List.mem_range]
  constructor
  · rintro ⟨j, hj, rfl⟩
    omega
  · rintro ⟨h1, h2, h3⟩
    exact ⟨(k - c) / 64, by omega, by omega⟩

theorem mem_strideCols_lindex (cols lindex k : Nat) (hl : lindex < 64) :
    k ∈ strideCols cols lindex ↔ k < cols ∧ k % 64 = lindex := by
  rw [mem_strideCols]
  omega

theorem nodup_strideCols (cols c : Nat) : (strideCols cols c).Nodup := by
  unfold strideCols
  refine List.Nodup.map ?_ (List.nodup_range _)
  intro a b hab
  simp only at hab
  omega

theorem length_strideCols_le (cols c : Nat) : (strideCols cols c).length ≤ cols / 64 + 1 := by
  unfold strideCols
  rw [List.length_map, List.length_range]
  omega

theorem stridedFor_eq_foldl {σ : Type} (body : σ → Int → σ) (cols : Nat)
    (hcols : cols + 64 ≤ 2147483648) :
    ∀ (fuel c : Nat) (s : σ), (strideCols cols c).length < fuel →
      stridedFor fuel cols body (c : Int) s =
        some ((strideCols cols c).foldl (fun (s : σ) (k : Nat) => body s (k : Int)) s) := by
  intro fuel
  induction fuel with
  | zero => intro c s h; omega
  | succ fuel ih =>
    intro c s h
    unfold stridedFor
    by_cases hc : c < cols
    · have hlt : (c : Int) < (cols : Int) := by exact_mod_cast hc
      have hw : wrapI32 ((c : Int) + (WG : Int)) = ((c + 64 : Nat) : Int) := by
        unfold WG
        rw [wrapI32_of_range] <;> push_cast <;> omega
      rw [if_pos hlt, hw, strideCols_of_lt cols c hc, List.foldl_cons]
      apply ih
      rw [strideCols_of_lt cols c hc, List.length_cons] at h
      omega
    · have hge : ¬ (c : Int) < (cols : Int) := by exact_mod_cast hc
      rw [if_neg hge, strideCols_of_ge cols c (by omega)]
      rfl

theorem perm_flatMap_strideCols (cols : Nat) :
    ((List.range 64).flatMap (strideCols cols)).Perm (List.range cols) := by
  apply (List.perm_ext_iff_of_nodup ?_ (List.nodup_range cols)).2
  · intro k
    simp only [List.mem_flatMap, List.mem_range]
    constructor
    · rintro ⟨l, hl, hk⟩
      exact ((mem_strideCols_lindex cols l k hl).1 hk).1
    · intro hk
      exact ⟨k % 64, Nat.mod_lt _ (by norm_num),
        (mem_strideCols_lindex cols (k % 64) k (Nat.mod_lt _ (by norm_num))).2 ⟨hk, rfl⟩⟩
  · rw [List.nodup_flatMap]
    refine ⟨fun l _ => nodup_strideCols cols l, ?_⟩
    refine List.Nodup.pairwise_of_forall_ne (List.nodup_range 64) ?_
    intro a ha b hb hab
    simp only [Function.onFun]
    intro k hka hkb
    rw [List.mem_range] at ha hb
    have h1 := ((mem_strideCols_lindex cols a k ha).1 hka).2
    have h2 := ((mem_strideCols_lindex cols b k hb).1 hkb).2
    exact hab (h1.symm.trans h2)

theorem runAll_eq_some {β : Type} (f : Nat → Option β) (d : β) (g : Nat → β)
    (h : ∀ l, l < WG → f l = some (g l)) :
    runAll f d = some (fun l => (f l).getD d) := by
  unfold runAll
  rw [if_pos]
  rw [List.all_eq_true]
  intro l hl
  rw [h l (List.mem_range.1 hl)]
  rfl

theorem runAll_eq_none {β : Type} (f : Nat → Option β) (d : β) (l : Nat) (hl : l < WG)
    (h : f l = none) : runAll f d = none := by
  unfold runAll
  rw [if_neg]
  rw [List.all_eq_true]
  intro hall
  have := hall l (List.mem_range.2 hl)
  rw [h] at this
  cases this

/-! ## The generated kernel: the two reductions -/

theorem storeAll_apply {β : Type} (threadShared : Nat → β) (store : Nat → Option β) (i : Nat) :
    storeAll threadShared store i =
      if i < WG then (store i).getD (threadShared i) else threadShared i := rfl

section KernelFacts

variable {α : Type} [LinearOrderedField α]

theorem exists_isMaxOn (threadShared : Nat → α) :
    ∀ n, 1 ≤ n → ∃ m, IsMaxOn threadShared n m := by
  intro n
  induction n with
  | zero => intro h; omega
  | succ n ih =>
    intro _
    rcases Nat.eq_zero_or_pos n with h0 | hpos
    · subst h0
      exact ⟨threadShared 0, fun i hi => by
        have : i = 0 := by omega
        rw [this], 0, by omega, rfl⟩
    · obtain ⟨m, hle, j, hj, hjm⟩ := ih hpos
      rcases le_total (threadShared n) m with h | h
      · refine ⟨m, fun i hi => ?_, j, by omega, hjm⟩
        rcases Nat.lt_succ_iff_lt_or_eq.1 hi with h' | h'
        · exact hle i h'
        · rw [h']; exact h
      · refine ⟨threadShared n, fun i hi => ?_, n, by omega, rfl⟩
        rcases Nat.lt_succ_iff_lt_or_eq.1 hi with h' | h'
        · exact (hle i h').trans h
        · rw [h']

theorem maxReduce_round (threadShared : Nat → α) (n : Nat) (m : α) (h64 : n ≤ 64)
    (hmax : IsMaxOn threadShared n m) :
    IsMaxOn
      (storeAll threadShared fun lindex =>
        if lindex < n / 2 then
          some (max (threadShared lindex) (threadShared (lindex + (n / 2 + n % 2))))
        else none)
      (n / 2 + n % 2) m := by
  obtain ⟨hle, j, hj, hjm⟩ := hmax
  have hlo : ∀ i, i < n / 2 →
      storeAll threadShared (fun lindex =>
        if lindex < n / 2 then
          some (max (threadShared lindex) (threadShared (lindex + (n / 2 + n % 2))))
        else none) i = max (threadShared i) (threadShared (i + (n / 2 + n % 2))) := by
    intro i hi
    have hw : i < WG := by unfold WG; omega
    rw [storeAll_apply, if_pos hw, if_pos hi]
    rfl
  have hhi : ∀ i, ¬ i < n / 2 →
      storeAll threadShared (fun lindex =>
        if lindex < n / 2 then
          some (max (threadShared lindex) (threadShared (lindex + (n / 2 + n % 2))))
        else none) i = threadShared i := by
    intro i hi
    rw [storeAll_apply, if_neg hi]
    simp
  refine ⟨fun i hi => ?_, ?_⟩
  · by_cases hc : i < n / 2
    · rw [hlo i hc]
      exact max_le (hle i (by omega)) (hle _ (by omega))
    · rw [hhi i hc]
      exact hle i (by omega)
  · by_cases hc : j < n / 2
    · refine ⟨j, by omega, ?_⟩
      rw [hlo j hc, hjm]
      exact max_eq_left (hle _ (by omega))
    · by_cases hc2 : j < n / 2 + n % 2
      · exact ⟨j, hc2, by rw [hhi j hc, hjm]⟩
      · refine ⟨j - (n / 2 + n % 2), by omega, ?_⟩
        have hlt : j - (n / 2 + n % 2) < n / 2 := by omega
        have hj' : j - (n / 2 + n % 2) + (n / 2 + n % 2) = j := by omega
        rw [hlo _ hlt, hj', hjm]
        exact max_eq_right (hle _ (by omega))

theorem maxReduce_spec :
    ∀ (n : Nat) (threadShared : Nat → α) (m : α), 1 ≤ n → n ≤ 64 →
      IsMaxOn threadShared n m → maxReduce n threadShared 0 = m := by
  intro n
  induction n using Nat.strong_induction_on with
  | _ n ih =>
    intro threadShared m h1 h64 hmax
    have hs : n >>> 1 = n / 2 := by
      rw [Nat.shiftRight_eq_div_pow, pow_one]
    rw [maxReduce, Nat.and_one_is_mod, hs]
    by_cases hc : 0 < n / 2
    · rw [if_pos hc]
      exact ih (n / 2 + n % 2) (by omega) _ m (by omega) (by omega)
        (maxReduce_round threadShared n m h64 hmax)
    · rw [if_neg hc]
      obtain ⟨_, j, hj, hjm⟩ := hmax
      have : j = 0 := by omega
      rw [← hjm, this]

theorem sumReduce_round (threadShared : Nat → α) (c : Nat) (hc : c ≤ 32) :
    ∑ i in Finset.range c,
      storeAll threadShared (fun lindex =>
        if lindex < c then some (threadShared lindex + threadShared (lindex + c)) else none) i =
    ∑ i in Finset.range (c + c), threadShared i := by
  rw [Finset.sum_range_add, ← Finset.sum_add_distrib]
  apply Finset.sum_congr rfl
  intro i hi
  rw [Finset.mem_range] at hi
  have hw : i < WG := by unfold WG; omega
  rw [storeAll_apply, if_pos hw, if_pos hi, add_comm c i]
  rfl

theorem sumReduce_spec :
    ∀ (k : Nat) (threadShared : Nat → α), k ≤ 5 →
      sumReduce (2 ^ k) threadShared 0 = ∑ i in Finset.range (2 ^ (k + 1)), threadShared i := by
  intro k
  induction k with
  | zero =>
    intro threadShared _
    rw [sumReduce, if_pos (by norm_num)]
    have h0 : (2 ^ 0) >>> 1 = 0 := by decide
    rw [h0, sumReduce, if_neg (by norm_num)]
    have := sumReduce_round threadShared 1 (by norm_num)
    simpa using this
  | succ k ih =>
    intro threadShared hk
    have hpos : 0 < 2 ^ (k + 1) := by positivity
    have hshift : (2 ^ (k + 1)) >>> 1 = 2 ^ k := by
      rw [Nat.shiftRight_eq_div_pow, pow_one, pow_succ]
      omega
    have hle : 2 ^ (k + 1) ≤ 32 := by
      have : 2 ^ (k + 1) ≤ 2 ^ 5 := Nat.pow_le_pow_right (by norm_num) hk
      simpa using this
    rw [sumReduce, if_pos hpos, hshift, ih _ (by omega),
      sumReduce_round threadShared (2 ^ (k + 1)) hle]
    congr 2
    rw [pow_succ 2 (k + 1)]
    omega

theorem sumReduce_WG (threadShared : Nat → α) :
    sumReduce (WG >>> 1) threadShared 0 = ∑ i in Finset.range 64, threadShared i := by
  have h : WG >>> 1 = 2 ^ 5 := by decide
  have h64 : 2 ^ (5 + 1) = 64 := by norm_num
  rw [h, sumReduce_spec 5 threadShared (le_refl 5), h64]

theorem foldl_max_spec (g : Nat → α) :
    ∀ (l : List Nat) (a : α),
      a ≤ l.foldl (fun m k => max m (g k)) a ∧
      (∀ k, k ∈ l → g k ≤ l.foldl (fun m k => max m (g k)) a) ∧
      (l.foldl (fun m k => max m (g k)) a = a ∨
        ∃ k, k ∈ l ∧ l.foldl (fun m k => max m (g k)) a = g k) := by
  intro l
  induction l with
  | nil => intro a; simp
  | cons c l ih =>
    intro a
    rw [List.foldl_cons]
    obtain ⟨h1, h2, h3⟩ := ih (max a (g c))
    refine ⟨(le_max_left _ _).trans h1, ?_, ?_⟩
    · intro k hk
      rcases List.mem_cons.1 hk with rfl | hk
      · exact (le_max_right _ _).trans h1
      · exact h2 k hk
    · rcases h3 with h3 | ⟨k, hk, h3⟩
      · rcases max_choice a (g c) with hm | hm
        · left; rw [h3, hm]
        · right; exact ⟨c, List.mem_cons_self _ _, by rw [h3, hm]⟩
      · right; exact ⟨k, List.mem_cons_of_mem _ hk, h3⟩

theorem foldl_add_eq_sum (g : Nat → α) :
    ∀ (l : List Nat) (a : α), l.foldl (fun s k => s + g k) a = a + (l.map g).sum := by
  intro l
  induction l with
  | nil => intro a; simp
  | cons c l ih =>
    intro a
    rw [List.foldl_cons, ih, List.map_cons, List.sum_cons, add_assoc]

end KernelFacts

/-! ## The generated kernel: the three phases -/

theorem runAll_spec {β : Type} (f : Nat → Option β) (d : β) (g : Nat → β)
    (h : ∀ l, l < WG → f l = some (g l)) :
    ∃ r : Nat → β, runAll f d = some r ∧ ∀ l, l < WG → r l = g l := by
  refine ⟨_, runAll_eq_some f d g h, fun l hl => ?_⟩
  show (f l).getD d = g l
  rw [h l hl]
  rfl

section PhaseFacts

variable {α : Type} [LinearOrderedField α]

theorem phase1_spec (fuel cols : Nat) (x : Int → α) (row : Nat → Int) (wg : Workgroup α)
    (h1 : 1 ≤ cols) (hcols : cols + 64 ≤ 2147483648) (hfuel : cols / 64 + 1 < fuel) :
    ∃ wg' : Workgroup α, phase1 fuel cols x row wg = some wg' ∧
      wg'.rowMaxShared = wg'.threadShared 0 ∧
      wg'.rowSumShared = wg.rowSumShared ∧
      threadMaxInit ≤ wg'.rowMaxShared ∧
      (∀ c, c < cols → columnValue cols x row c ≤ wg'.rowMaxShared) ∧
      (wg'.rowMaxShared = threadMaxInit ∨
        ∃ c, c < cols ∧ wg'.rowMaxShared = columnValue cols x row c) := by
  have hthread : ∀ l, l < WG →
      stridedFor fuel cols
        (fun threadMax col => max threadMax (getValue x (row l) col cols))
        (l : Int) threadMaxInit =
      some ((strideCols cols l).foldl
        (fun (m : α) (k : Nat) => max m (getValue x (row l) (k : Int) (cols : Int)))
        threadMaxInit) := by
    intro l _
    exact stridedFor_eq_foldl _ cols hcols fuel l _
      (lt_of_le_of_lt (length_strideCols_le cols l) hfuel)
  obtain ⟨tm, hrun, htm⟩ := runAll_spec _ (threadMaxInit : α) _ hthread
  have hn1 : 1 ≤ min cols WG := by unfold WG; omega
  have hn64 : min cols WG ≤ 64 := by unfold WG; omega
  obtain ⟨m, hm⟩ := exists_isMaxOn
    (storeAll wg.threadShared fun lindex => if lindex < cols then some (tm lindex) else none)
    (min cols WG) hn1
  have hred := maxReduce_spec (min cols WG) _ m hn1 hn64 hm
  have hp : phase1 fuel cols x row wg = some
      { wg with
        threadShared := maxReduce (min cols WG)
          (storeAll wg.threadShared fun lindex =>
            if lindex < cols then some (tm lindex) else none)
        rowMaxShared := maxReduce (min cols WG)
          (storeAll wg.threadShared fun lindex =>
            if lindex < cols then some (tm lindex) else none) 0 } := by
    rw [phase1, hrun]
    rfl
  refine ⟨_, hp, rfl, rfl, ?_⟩
  simp only []
  rw [hred]
  have hslot : ∀ i, i < min cols WG →
      storeAll wg.threadShared
        (fun lindex => if lindex < cols then some (tm lindex) else none) i =
      (strideCols cols i).foldl
        (fun (m : α) (k : Nat) => max m (getValue x (row i) (k : Int) (cols : Int)))
        threadMaxInit := by
    intro i hi
    have hw : i < WG := lt_of_lt_of_le hi (min_le_right _ _)
    have hc : i < cols := lt_of_lt_of_le hi (min_le_left _ _)
    rw [storeAll_apply, if_pos hw, if_pos hc, Option.getD_some, htm i hw]
  obtain ⟨hle, j, hj, hjm⟩ := hm
  have hjW : j < 64 := lt_of_lt_of_le hj (min_le_right _ _)
  rw [hslot j hj] at hjm
  obtain ⟨f1, _, f3⟩ := foldl_max_spec (fun k => getValue x (row j) (k : Int) (cols : Int))
    (strideCols cols j) threadMaxInit
  refine ⟨by rw [← hjm]; exact f1, fun c hc => ?_, ?_⟩
  · have hmod : c % 64 < min cols WG := by
      unfold WG
      have := Nat.mod_lt c (show 64 > 0 by norm_num)
      have := Nat.mod_le c 64
      exact lt_min (by omega) (by omega)
    have hmem : c ∈ strideCols cols (c % 64) :=
      (mem_strideCols_lindex cols (c % 64) c (Nat.mod_lt c (by norm_num))).2 ⟨hc, rfl⟩
    have hfold := (foldl_max_spec (fun k => getValue x (row (c % 64)) (k : Int) (cols : Int))
      (strideCols cols (c % 64)) threadMaxInit).2.1 c hmem
    have := hle (c % 64) hmod
    rw [hslot (c % 64) hmod] at this
    exact hfold.trans this
  · rcases f3 with f3 | ⟨k, hk, f3⟩
    · left; rw [← hjm]; exact f3
    · right
      obtain ⟨hkc, hkm⟩ := (mem_strideCols_lindex cols j k hjW).1 hk
      refine ⟨k, hkc, ?_⟩
      rw [← hjm, f3]
      unfold columnValue
      rw [hkm]

end PhaseFacts

section PhaseFacts2

variable {α : Type} [LinearOrderedField α]

theorem list_sum_range (f : Nat → α) :
    ∀ n, ((List.range n).map f).sum = ∑ i in Finset.range n, f i := by
  intro n
  induction n with
  | zero => simp
  | succ n ih =>
    rw [List.range_succ, List.map_append, List.sum_append, ih, Finset.sum_range_succ]
    simp

theorem sum_map_flatMap {β : Type} (L : Nat → List β) (F : β → α) :
    ∀ l : List Nat,
      ((l.flatMap L).map F).sum = (l.map fun i => ((L i).map F).sum).sum := by
  intro l
  induction l with
  | nil => simp
  | cons a l ih =>
    rw [List.flatMap_cons, List.map_append, List.sum_append, ih, List.map_cons, List.sum_cons]

theorem sum_strideCols (cols : Nat) (F : Nat → α) :
    ∑ l in Finset.range 64, ((strideCols cols l).map F).sum = ∑ c in Finset.range cols, F c := by
  rw [← list_sum_range, ← sum_map_flatMap, ← list_sum_range]
  exact List.Perm.sum_eq (List.Perm.map F (perm_flatMap_strideCols cols))

theorem phase2_spec (fuel : Nat) (exp : α → α) (cols : Nat) (x : Int → α) (row : Nat → Int)
    (wg : Workgroup α) (hcols : cols + 64 ≤ 2147483648) (hfuel : cols / 64 + 1 < fuel) :
    ∃ wg' : Workgroup α, phase2 fuel exp cols x row wg = some wg' ∧
      wg'.rowSumShared = wg'.threadShared 0 ∧
      wg'.rowMaxShared = wg.rowMaxShared ∧
      wg'.rowSumShared =
        ∑ c in Finset.range cols, exp (columnValue cols x row c - wg.rowMaxShared) := by
  have hthread : ∀ l, l < WG →
      stridedFor fuel cols
        (fun threadSum col =>
          threadSum + exp (getValue x (row l) col cols - wg.rowMaxShared))
        (l : Int) 0 =
      some ((strideCols cols l).foldl
        (fun (s : α) (k : Nat) =>
          s + exp (getValue x (row l) (k : Int) (cols : Int) - wg.rowMaxShared)) 0) := by
    intro l _
    exact stridedFor_eq_foldl _ cols hcols fuel l _
      (lt_of_le_of_lt (length_strideCols_le cols l) hfuel)
  obtain ⟨ts, hrun, hts⟩ := runAll_spec _ (0 : α) _ hthread
  have hp : phase2 fuel exp cols x row wg = some
      { wg with
        threadShared := sumReduce (WG >>> 1)
          (storeAll wg.threadShared fun lindex => some (ts lindex))
        rowSumShared := sumReduce (WG >>> 1)
          (storeAll wg.threadShared fun lindex => some (ts lindex)) 0 } := by
    rw [phase2, hrun]
    rfl
  refine ⟨_, hp, rfl, rfl, ?_⟩
  show sumReduce (WG >>> 1) (storeAll wg.threadShared fun lindex => some (ts lindex)) 0 = _
  rw [sumReduce_WG, ← sum_strideCols cols
    (fun c => exp (columnValue cols x row c - wg.rowMaxShared))]
  apply Finset.sum_congr rfl
  intro l hl
  rw [Finset.mem_range] at hl
  have hw : l < WG := hl
  rw [storeAll_apply, if_pos hw, Option.getD_some, hts l hw, foldl_add_eq_sum, zero_add]
  congr 1
  apply List.map_congr_left
  intro k hk
  have hkm := ((mem_strideCols_lindex cols l k hl).1 hk).2
  unfold columnValue
  rw [hkm]

omit [LinearOrderedField α] in
theorem foldl_setValue (g : Nat → Int × α) (G : List (Int × α) → Nat → List (Int × α))
    (hG : ∀ r k, G r k = r ++ [g k]) :
    ∀ (l : List Nat) (r : List (Int × α)), l.foldl G r = r ++ l.map g := by
  intro l
  induction l with
  | nil => intro r; simp
  | cons c l ih =>
    intro r
    rw [List.foldl_cons, ih, hG, List.map_cons, List.append_assoc]
    rfl

theorem phase3_spec (fuel : Nat) (exp : α → α) (cols : Nat) (x : Int → α) (row : Nat → Int)
    (wg : Workgroup α) (hcols : cols + 64 ≤ 2147483648) (hfuel : cols / 64 + 1 < fuel) :
    ∃ result : List (Int × α), phase3 fuel exp cols x row wg = some result ∧
      result.Perm
        ((List.range cols).map fun c =>
          (flatIndex (row (c % 64)) (c : Int) (cols : Int),
            exp (columnValue cols x row c - wg.rowMaxShared) / wg.rowSumShared)) := by
  have hthread : ∀ l, l < WG →
      stridedFor fuel cols
        (fun result col =>
          setValue result (row l) col cols
            (exp (getValue x (row l) col cols - wg.rowMaxShared) / wg.rowSumShared))
        (l : Int) [] =
      some ((strideCols cols l).map fun (k : Nat) =>
        (flatIndex (row l) (k : Int) (cols : Int),
          exp (getValue x (row l) (k : Int) (cols : Int) - wg.rowMaxShared) /
            wg.rowSumShared)) := by
    intro l _
    rw [stridedFor_eq_foldl _ cols hcols fuel l _
      (lt_of_le_of_lt (length_strideCols_le cols l) hfuel)]
    have hfold := foldl_setValue
      (fun (k : Nat) =>
        (flatIndex (row l) (k : Int) (cols : Int),
          exp (getValue x (row l) (k : Int) (cols : Int) - wg.rowMaxShared) /
            wg.rowSumShared))
      (fun result (k : Nat) =>
        setValue result (row l) (k : Int) (cols : Int)
          (exp (getValue x (row l) (k : Int) (cols : Int) - wg.rowMaxShared) /
            wg.rowSumShared))
      (fun r k => rfl) (strideCols cols l) []
    rw [List.nil_append] at hfold
    exact congrArg some hfold
  obtain ⟨res, hrun, hres⟩ := runAll_spec _ ([] : List (Int × α)) _ hthread
  have hp : phase3 fuel exp cols x row wg = some ((List.range WG).flatMap res) := by
    rw [phase3, hrun]
    rfl
  refine ⟨_, hp, ?_⟩
  have hflat : (List.range WG).flatMap res =
      ((List.range 64).flatMap (strideCols cols)).map fun c =>
        (flatIndex (row (c % 64)) (c : Int) (cols : Int),
          exp (columnValue cols x row c - wg.rowMaxShared) / wg.rowSumShared) := by
    rw [List.map_flatMap]
    apply List.flatMap_congr
    intro l hl
    rw [List.mem_range] at hl
    rw [hres l hl]
    apply List.map_congr_left
    intro k hk
    have hkm := ((mem_strideCols_lindex cols l k hl).1 hk).2
    unfold columnValue
    rw [hkm]
  rw [hflat]
  exact List.Perm.map _ (perm_flatMap_strideCols cols)

end PhaseFacts2

/-! ## The generated kernel: `i32` overflow of the loop counter -/

theorem stridedFor_diverges {σ : Type} (body : σ → Int → σ) (cols : Nat)
    (hcols : 2147483584 < cols) :
    ∀ (fuel : Nat) (col : Int) (s : σ), -2147483648 ≤ col → col ≤ 2147483584 → col % 64 = 0 →
      stridedFor fuel cols body col s = none := by
  intro fuel
  induction fuel with
  | zero => intro col s _ _ _; rfl
  | succ fuel ih =>
    intro col s hlo hhi hmod
    have hlt : col < (cols : Int) := by omega
    unfold stridedFor
    rw [if_pos hlt]
    apply ih
    · unfold wrapI32 WG; omega
    · unfold wrapI32 WG; push_cast; omega
    · unfold wrapI32 WG; push_cast; omega

section Overflow

variable {α : Type} [LinearOrderedField α]

theorem phase1_diverges (fuel cols : Nat) (x : Int → α) (row : Nat → Int) (wg : Workgroup α)
    (hcols : 2147483584 < cols) : phase1 fuel cols x row wg = none := by
  have h : runAll (fun lindex =>
      stridedFor fuel cols
        (fun threadMax col => max threadMax (getValue x (row lindex) col cols))
        lindex threadMaxInit) (threadMaxInit : α) = none :=
    runAll_eq_none _ _ 0 (by decide)
      (stridedFor_diverges _ cols hcols fuel _ _ (by norm_num) (by norm_num) (by norm_num))
  rw [phase1, h]
  rfl

theorem phase2_diverges (fuel : Nat) (exp : α → α) (cols : Nat) (x : Int → α) (row : Nat → Int)
    (wg : Workgroup α) (hcols : 2147483584 < cols) : phase2 fuel exp cols x row wg = none := by
  have h : runAll (fun lindex =>
      stridedFor fuel cols
        (fun threadSum col =>
          threadSum + exp (getValue x (row lindex) col cols - wg.rowMaxShared))
        lindex 0) (0 : α) = none :=
    runAll_eq_none _ _ 0 (by decide)
      (stridedFor_diverges _ cols hcols fuel _ _ (by norm_num) (by norm_num) (by norm_num))
  rw [phase2, h]
  rfl

theorem main_diverges (fuel : Nat) (exp : α → α) (cols : Nat) (x : Int → α)
    (workgroup_id_x : Nat) (hcols : 2147483584 < cols) :
    main fuel exp cols x workgroup_id_x = none := by
  rw [main, softmaxKernel, phase1_diverges fuel cols x _ _ hcols]
  rfl

end Overflow

/-! ## The generated kernel: the claims -/

theorem threadMaxInit_rat :
    (threadMaxInit : ℚ) = -340282300000000000000000000000000000000 := by
  unfold threadMaxInit
  norm_num

theorem phase1_lowest_f32 :
    ∃ wg : Workgroup ℚ,
      phase1 2 1 (fun _ => -(16777215 * 2 ^ 104)) (invocationRow 0) ⟨fun _ => 0, 0, 0⟩ = some wg ∧
      wg.rowMaxShared = -340282300000000000000000000000000000000 ∧
      wg.threadShared 0 = wg.rowMaxShared ∧
      ∀ c, columnValue 1 (fun _ => (-(16777215 * 2 ^ 104) : ℚ)) (invocationRow 0) c =
        -340282346638528859811704183484516925440 := by
  obtain ⟨wg, hp, h0, _, hinit, _, hcase⟩ :=
    phase1_spec (α := ℚ) 2 1 (fun _ => -(16777215 * 2 ^ 104)) (invocationRow 0)
      ⟨fun _ => 0, 0, 0⟩ (le_refl 1) (by norm_num) (by norm_num)
  have hv : ∀ c, columnValue 1 (fun _ => (-(16777215 * 2 ^ 104) : ℚ)) (invocationRow 0) c =
      -340282346638528859811704183484516925440 := by
    intro c
    unfold columnValue getValue
    norm_num
  rw [threadMaxInit_rat] at hinit hcase
  have hm : wg.rowMaxShared = -340282300000000000000000000000000000000 := by
    rcases hcase with h | ⟨c, _, h⟩
    · exact h
    · rw [h, hv c] at hinit
      norm_num at hinit
  exact ⟨wg, hp, hm, h0.symm, hv⟩

/-- C4 (counterexample). Two rows for which phase 1 does not leave the row maximum in
`rowMaxShared`. With `cols = 2147483647` it leaves nothing, whatever the fuel: the counter `col` of
invocation 0 reaches `2147483584 < cols`, wraps to `-2147483648` on `col += wg`, and the loop never
exits. For the one-column row holding the lowest finite `f32`, `-16777215 * 2^104`, it leaves the
initial value `-3.402823e+38` of `threadMax`, which is greater than the only value of the row. -/
theorem phase1_not_row_max :
    (¬ ∃ (fuel : Nat) (wg : Workgroup ℚ),
      phase1 fuel 2147483647 (fun _ => 0) (invocationRow 0) ⟨fun _ => 0, 0, 0⟩ = some wg) ∧
    ∃ wg : Workgroup ℚ,
      phase1 2 1 (fun _ => -(16777215 * 2 ^ 104)) (invocationRow 0) ⟨fun _ => 0, 0, 0⟩ = some wg ∧
      wg.rowMaxShared = -340282300000000000000000000000000000000 ∧
      wg.threadShared 0 = wg.rowMaxShared ∧
      columnValue 1 (fun _ => (-(16777215 * 2 ^ 104) : ℚ)) (invocationRow 0) 0 =
        -340282346638528859811704183484516925440 ∧
      columnValue 1 (fun _ => (-(16777215 * 2 ^ 104) : ℚ)) (invocationRow 0) 0 <
        wg.rowMaxShared := by
  constructor
  · rintro ⟨fuel, wg, h⟩
    rw [phase1_diverges fuel 2147483647 _ _ _ (by norm_num)] at h
    cases h
  · obtain ⟨wg, hp, hm, h0, hv⟩ := phase1_lowest_f32
    refine ⟨wg, hp, hm, h0, hv 0, ?_⟩
    rw [hv 0, hm]
    norm_num

/-- C4 (amended). Under the lockstep-between-barriers model of one workgroup, for every row length
`cols` with `1 ≤ cols` and `cols + 64 ≤ 2^31` (odd `cols`, `cols < 64` and `cols > 64` included)
and every row one of whose values is not below the initial value `-3.402823e+38` of `threadMax`,
phase 1 terminates and `rowMaxShared` equals the maximum of the row's `cols` values: no value of
the row exceeds it and it is one of them. It is the content of `threadShared[0]`, where the
odd-remainder tree reduction leaves the greatest of the first `n` slots for every `1 ≤ n ≤ 64`. -/
theorem phase1_rowMax {α : Type} [LinearOrderedField α] (fuel cols : Nat) (x : Int → α)
    (row : Nat → Int) (wg : Workgroup α) (h1 : 1 ≤ cols) (hcols : cols + 64 ≤ 2147483648)
    (hfuel : cols / 64 + 1 < fuel)
    (hrow : ∃ c, c < cols ∧ threadMaxInit ≤ columnValue cols x row c) :
    (∃ wg' : Workgroup α, phase1 fuel cols x row wg = some wg' ∧
      wg'.rowMaxShared = wg'.threadShared 0 ∧
      (∀ c, c < cols → columnValue cols x row c ≤ wg'.rowMaxShared) ∧
      ∃ c, c < cols ∧ wg'.rowMaxShared = columnValue cols x row c) ∧
    (∀ (n : Nat) (threadShared : Nat → α) (m : α), 1 ≤ n → n ≤ 64 →
      IsMaxOn threadShared n m → maxReduce n threadShared 0 = m) := by
  obtain ⟨wg', hp, h0, _, _, hle, hcase⟩ := phase1_spec fuel cols x row wg h1 hcols hfuel
  refine ⟨⟨wg', hp, h0, hle, ?_⟩, maxReduce_spec⟩
  rcases hcase with h | h
  · obtain ⟨c, hc, hinit⟩ := hrow
    refine ⟨c, hc, le_antisymm ?_ (hle c hc)⟩
    rw [h]
    exact hinit
  · exact h

/-- C4 (witness): a row of 67 columns, an odd length above 64, holding `0, 1, ..., 66`. -/
theorem phase1_rowMax_witness :
    (∃ wg' : Workgroup ℚ,
      phase1 3 67 (fun i => (i : ℚ)) (invocationRow 0) ⟨fun _ => 0, 0, 0⟩ = some wg' ∧
      wg'.rowMaxShared = wg'.threadShared 0 ∧
      (∀ c, c < 67 →
        columnValue 67 (fun i => (i : ℚ)) (invocationRow 0) c ≤ wg'.rowMaxShared) ∧
      ∃ c, c < 67 ∧ wg'.rowMaxShared = columnValue 67 (fun i => (i : ℚ)) (invocationRow 0) c) ∧
    (∀ (n : Nat) (threadShared : Nat → ℚ) (m : ℚ), 1 ≤ n → n ≤ 64 →
      IsMaxOn threadShared n m → maxReduce n threadShared 0 = m) :=
  phase1_rowMax 3 67 (fun i => (i : ℚ)) (invocationRow 0) ⟨fun _ => 0, 0, 0⟩ (by norm_num)
    (by norm_num) (by norm_num)
    ⟨0, by norm_num, by
      have hi : flatIndex (invocationRow 0 (0 % 64)) ((0 : Nat) : Int) ((67 : Nat) : Int) = 0 := by
        decide
      unfold columnValue getValue
      rw [hi, threadMaxInit_rat]
      norm_num⟩

section Claims

variable {α : Type} [LinearOrderedField α]

theorem stridedFor_of_cols_le {σ : Type} (fuel cols : Nat) (body : σ → Int → σ) (lindex : Nat)
    (s : σ) (hl : cols ≤ lindex) (hfuel : 0 < fuel) :
    stridedFor fuel cols body (lindex : Int) s = some s := by
  obtain ⟨n, rfl⟩ : ∃ n, fuel = n + 1 := ⟨fuel - 1, by omega⟩
  unfold stridedFor
  rw [if_neg]
  exact_mod_cast not_lt.2 hl

/-- C5 (counterexample). With `cols = 2147483647` phase 2 produces no `rowSumShared`, whatever the
fuel: the counter `col` of invocation 0 reaches `2147483584 < cols`, wraps to `-2147483648` on
`col += wg`, and the loop never exits. -/
theorem phase2_no_sum_i32_max :
    ¬ ∃ (fuel : Nat) (wg : Workgroup ℝ),
      phase2 fuel Real.exp 2147483647 (fun _ => 0) (invocationRow 0) ⟨fun _ => 0, 0, 0⟩ =
        some wg := by
  rintro ⟨fuel, wg, h⟩
  rw [phase2_diverges fuel Real.exp 2147483647 _ _ _ (by norm_num)] at h
  cases h

/-- C5 (amended). Under the lockstep-between-barriers model, with exact arithmetic, for every
`cols` with `cols + 64 ≤ 2^31` (every `col += wg` stays in `i32`) phase 2 terminates and
`rowSumShared` equals the sum over all columns `c < cols` of `exp(x[row, c] - rowMaxShared)`,
`x[row, c]` being the `getValue(row, c, row_stride)` of the invocation `c mod 64`: an invocation
with no column stores `0`, the halving reduction from 32 down to 1 leaves the sum of all 64 slots
in `threadShared[0]`, and that is what `rowSumShared` receives. -/
theorem phase2_rowSum (fuel : Nat) (exp : α → α) (cols : Nat) (x : Int → α) (row : Nat → Int)
    (wg : Workgroup α) (hcols : cols + 64 ≤ 2147483648) (hfuel : cols / 64 + 1 < fuel) :
    (∃ wg' : Workgroup α, phase2 fuel exp cols x row wg = some wg' ∧
      wg'.rowSumShared =
        ∑ c in Finset.range cols, exp (columnValue cols x row c - wg.rowMaxShared) ∧
      wg'.rowSumShared = wg'.threadShared 0 ∧
      wg'.rowMaxShared = wg.rowMaxShared) ∧
    (∀ lindex, cols ≤ lindex →
      stridedFor fuel cols
        (fun threadSum col =>
          threadSum + exp (getValue x (row lindex) col cols - wg.rowMaxShared))
        (lindex : Int) 0 = some 0) ∧
    (∀ threadShared : Nat → α,
      sumReduce (WG >>> 1) threadShared 0 = ∑ i in Finset.range 64, threadShared i) := by
  obtain ⟨wg', hp, h0, hmax, hsum⟩ := phase2_spec fuel exp cols x row wg hcols hfuel
  exact ⟨⟨wg', hp, hsum, h0, hmax⟩,
    fun lindex hl => stridedFor_of_cols_le fuel cols _ lindex 0 hl (by omega),
    fun threadShared => sumReduce_WG threadShared⟩

/-- C5 (witness): a row of 70 columns holding `0, 1, ..., 69`, with `rowMaxShared = 69`. -/
theorem phase2_rowSum_witness :
    (∃ wg' : Workgroup ℝ,
      phase2 3 Real.exp 70 (fun i => (i : ℝ)) (invocationRow 0) ⟨fun _ => 0, 69, 0⟩ = some wg' ∧
      wg'.rowSumShared =
        ∑ c in Finset.range 70,
          Real.exp (columnValue 70 (fun i => (i : ℝ)) (invocationRow 0) c - 69) ∧
      wg'.rowSumShared = wg'.threadShared 0 ∧
      wg'.rowMaxShared = 69) ∧
    (∀ lindex, 70 ≤ lindex →
      stridedFor 3 70
        (fun threadSum col =>
          threadSum + Real.exp (getValue (fun i => (i : ℝ)) (invocationRow 0 lindex) col
            ((70 : Nat) : Int) - 69))
        (lindex : Int) 0 = some 0) ∧
    (∀ threadShared : Nat → ℝ,
      sumReduce (WG >>> 1) threadShared 0 = ∑ i in Finset.range 64, threadShared i) :=
  phase2_rowSum 3 Real.exp 70 (fun i => (i : ℝ)) (invocationRow 0) ⟨fun _ => 0, 69, 0⟩
    (by norm_num) (by norm_num)

end Claims

theorem invocationRow_eq (workgroup_id_x lindex : Nat) (hl : lindex < 64)
    (hw : 64 * workgroup_id_x + 64 ≤ 2147483648) :
    invocationRow workgroup_id_x lindex = (workgroup_id_x : Int) := by
  unfold invocationRow i32OfU32 globalIdX WG
  have hmod : (workgroup_id_x * 64 + lindex) % 4294967296 = workgroup_id_x * 64 + lindex :=
    Nat.mod_eq_of_lt (by omega)
  rw [hmod, hmod, wrapI32_of_range _ (by omega) (by omega),
    Int.tdiv_eq_ediv (by omega) (by norm_num)]
  push_cast
  omega

theorem flatIndex_eq (rows cols w c : Nat) (hw : w < rows) (hc : c < cols)
    (hsize : rows * cols ≤ 2147483648) :
    flatIndex (w : Int) (c : Int) (cols : Int) = ((w * cols + c : Nat) : Int) ∧
      w * cols + c < rows * cols := by
  have hmul : w * cols + cols ≤ rows * cols := by
    calc w * cols + cols = (w + 1) * cols := by ring
      _ ≤ rows * cols := Nat.mul_le_mul_right cols hw
  have hlt : w * cols + c < rows * cols := by omega
  refine ⟨?_, hlt⟩
  unfold flatIndex
  have h1 : (w : Int) * (cols : Int) = ((w * cols : Nat) : Int) := by push_cast; ring
  rw [h1, wrapI32_of_range ((w * cols : Nat) : Int) (by omega) (by omega),
    wrapI32_of_range _ (by omega) (by omega)]
  push_cast
  ring

/-- C6 (counterexample). With `rows = 33554433` and `cols = 1`, in the workgroup with id
`33554432 < rows` the value `i32(global_id.x)` is negative: invocation 0 computes
`row = -33554432`, invocation 1 computes `row = -33554431`, neither is the workgroup id, and the
flat index invocation 0 uses for column 0 is negative. -/
theorem invocationRow_wraps :
    (33554432 : Nat) < 33554433 ∧
    invocationRow 33554432 0 = -33554432 ∧
    invocationRow 33554432 1 = -33554431 ∧
    flatIndex (invocationRow 33554432 0) 0 ((1 : Nat) : Int) = -33554432 := by
  decide

/-- C6 (amended). For all `rows`, `cols` and every workgroup id `w < rows` such that no `i32`
value of the kernel overflows (`64 * rows ≤ 2^31`, `cols + 64 ≤ 2^31`, `rows * cols ≤ 2^31`):
`row`, computed as `i32(global_id.x) / 64`, is `w` in all 64 invocations; every strided loop of
invocation `lindex` runs its body exactly on the columns `c < cols` with `c mod 64 = lindex`, each
once; `getValue` and `setValue` address the flat index `w * cols + c`, which is below
`rows * cols`; and the stores of phase 3 are, up to their order, one store per column `c < cols`,
of `exp(x[w * cols + c] - rowMaxShared) / rowSumShared` at index `w * cols + c`. -/
theorem main_indexing {α : Type} [LinearOrderedField α] (fuel rows cols w : Nat) (x : Int → α)
    (hw : w < rows) (hrows : 64 * rows ≤ 2147483648) (hcols : cols + 64 ≤ 2147483648)
    (hsize : rows * cols ≤ 2147483648) (hfuel : cols / 64 + 1 < fuel) :
    (∀ lindex : Nat, lindex < 64 → invocationRow w lindex = (w : Int)) ∧
    (∀ lindex : Nat, lindex < 64 →
      (∀ (σ : Type) (body : σ → Int → σ) (s : σ),
        stridedFor fuel cols body (lindex : Int) s =
          some ((strideCols cols lindex).foldl (fun (s : σ) (c : Nat) => body s (c : Int)) s)) ∧
      (strideCols cols lindex).Nodup ∧
      ∀ c, c ∈ strideCols cols lindex ↔ c < cols ∧ c % 64 = lindex) ∧
    (∀ c, c < cols →
      flatIndex (invocationRow w (c % 64)) (c : Int) (cols : Int) = ((w * cols + c : Nat) : Int) ∧
      w * cols + c < rows * cols) ∧
    (∀ (exp : α → α) (wg : Workgroup α),
      ∃ result : List (Int × α),
        phase3 fuel exp cols x (invocationRow w) wg = some result ∧
        result.Perm
          ((List.range cols).map fun c =>
            (((w * cols + c : Nat) : Int),
              exp (x ((w * cols + c : Nat) : Int) - wg.rowMaxShared) / wg.rowSumShared))) := by
  have hrow : ∀ lindex, lindex < 64 → invocationRow w lindex = (w : Int) :=
    fun lindex hl => invocationRow_eq w lindex hl (by omega)
  have hidx : ∀ c, c < cols →
      flatIndex (invocationRow w (c % 64)) (c : Int) (cols : Int) = ((w * cols + c : Nat) : Int) ∧
      w * cols + c < rows * cols := by
    intro c hc
    rw [hrow (c % 64) (Nat.mod_lt c (by norm_num))]
    exact flatIndex_eq rows cols w c hw hc hsize
  refine ⟨hrow, fun lindex hl => ⟨fun σ body s => ?_, nodup_strideCols cols lindex,
    fun c => mem_strideCols_lindex cols lindex c hl⟩, hidx, fun exp wg => ?_⟩
  · exact stridedFor_eq_foldl body cols hcols fuel lindex s
      (lt_of_le_of_lt (length_strideCols_le cols lindex) hfuel)
  · obtain ⟨result, hp, hperm⟩ := phase3_spec fuel exp cols x (invocationRow w) wg hcols hfuel
    refine ⟨result, hp, ?_⟩
    have hmap : ((List.range cols).map fun c =>
          (flatIndex (invocationRow w (c % 64)) (c : Int) (cols : Int),
            exp (columnValue cols x (invocationRow w) c - wg.rowMaxShared) / wg.rowSumShared)) =
        (List.range cols).map fun c =>
          (((w * cols + c : Nat) : Int),
            exp (x ((w * cols + c : Nat) : Int) - wg.rowMaxShared) / wg.rowSumShared) := by
      apply List.map_congr_left
      intro c hc
      rw [List.mem_range] at hc
      unfold columnValue getValue
      rw [(hidx c hc).1]
    rw [← hmap]
    exact hperm

/-- C6 (witness): `rows = 2`, `cols = 70`, the workgroup with id 1. -/
theorem main_indexing_witness :
    (∀ lindex : Nat, lindex < 64 → invocationRow 1 lindex = ((1 : Nat) : Int)) ∧
    (∀ lindex : Nat, lindex < 64 →
      (∀ (σ : Type) (body : σ → Int → σ) (s : σ),
        stridedFor 3 70 body (lindex : Int) s =
          some ((strideCols 70 lindex).foldl (fun (s : σ) (c : Nat) => body s (c : Int)) s)) ∧
      (strideCols 70 lindex).Nodup ∧
      ∀ c, c ∈ strideCols 70 lindex ↔ c < 70 ∧ c % 64 = lindex) ∧
    (∀ c, c < 70 →
      flatIndex (invocationRow 1 (c % 64)) (c : Int) ((70 : Nat) : Int) =
        ((1 * 70 + c : Nat) : Int) ∧
      1 * 70 + c < 2 * 70) ∧
    (∀ (exp : ℚ → ℚ) (wg : Workgroup ℚ),
      ∃ result : List (Int × ℚ),
        phase3 3 exp 70 (fun i => (i : ℚ)) (invocationRow 1) wg = some result ∧
        result.Perm
          ((List.range 70).map fun c =>
            (((1 * 70 + c : Nat) : Int),
              exp ((fun i : Int => (i : ℚ)) ((1 * 70 + c : Nat) : Int) - wg.rowMaxShared) /
                wg.rowSumShared))) :=
  main_indexing 3 2 70 1 (fun i => (i : ℚ)) (by norm_num) (by norm_num) (by norm_num)
    (by norm_num) (by norm_num)

theorem softmaxKernel_spec {α : Type} [LinearOrderedField α] (fuel : Nat) (exp : α → α)
    (cols : Nat) (x : Int → α) (row : Nat → Int) (h1 : 1 ≤ cols)
    (hcols : cols + 64 ≤ 2147483648) (hfuel : cols / 64 + 1 < fuel) :
    ∃ (result : List (Int × α)) (m : α), softmaxKernel fuel exp cols x row = some result ∧
      result.Perm
        ((List.range cols).map fun c =>
          (flatIndex (row (c % 64)) (c : Int) (cols : Int),
            exp (columnValue cols x row c - m) /
              ∑ j in Finset.range cols, exp (columnValue cols x row j - m))) := by
  obtain ⟨wg1, hp1, _, _, _, _, _⟩ :=
    phase1_spec fuel cols x row ⟨fun _ => 0, 0, 0⟩ h1 hcols hfuel
  obtain ⟨wg2, hp2, _, hmax, hsum⟩ := phase2_spec fuel exp cols x row wg1 hcols hfuel
  obtain ⟨result, hp3, hperm⟩ := phase3_spec fuel exp cols x row wg2 hcols hfuel
  refine ⟨result, wg1.rowMaxShared, ?_, ?_⟩
  · rw [softmaxKernel, hp1, Option.some_bind, hp2, Option.some_bind, hp3]
  · rw [hmax, hsum] at hperm
    exact hperm

theorem softmax_shift (cols : Nat) (v : Nat → ℝ) (m : ℝ) (c : Nat) :
    Real.exp (v c - m) / ∑ j in Finset.range cols, Real.exp (v j - m) =
      Real.exp (v c) / ∑ j in Finset.range cols, Real.exp (v j) := by
  have hm : Real.exp m ≠ 0 := (Real.exp_pos m).ne'
  have hsum : ∑ j in Finset.range cols, Real.exp (v j - m) =
      (∑ j in Finset.range cols, Real.exp (v j)) / Real.exp m := by
    rw [Finset.sum_div]
    exact Finset.sum_congr rfl fun j _ => Real.exp_sub _ _
  rw [hsum, Real.exp_sub, div_div_div_cancel_right₀ hm]

/-- C7 (counterexample). With `cols = 2147483647` the kernel writes nothing for the row, whatever
the fuel: the loop counter of invocation 0 overflows `i32` in phase 1 and the loop never exits. -/
theorem main_no_result_i32_max :
    ¬ ∃ (fuel : Nat) (result : List (Int × ℝ)),
      main fuel Real.exp 2147483647 (fun _ => 0) 0 = some result := by
  rintro ⟨fuel, result, h⟩
  rw [main_diverges fuel Real.exp 2147483647 _ 0 (by norm_num)] at h
  cases h

/-- C7 (amended). Over the real numbers, for every non-empty row with `cols + 64 ≤ 2^31` (the
loop counter stays in `i32`) the kernel terminates and its stores for the row are, up to their
order, one per column `c < cols`, of the reference softmax value
`exp(x_c) / sum_j exp(x_j)`, where `x_c` is the value `getValue(row, c, row_stride)` read for
column `c`; the stored values sum to exactly 1 and each lies in `(0, 1]`. -/
theorem main_softmax (fuel cols : Nat) (x : Int → ℝ) (workgroup_id_x : Nat) (h1 : 1 ≤ cols)
    (hcols : cols + 64 ≤ 2147483648) (hfuel : cols / 64 + 1 < fuel) :
    ∃ result : List (Int × ℝ), main fuel Real.exp cols x workgroup_id_x = some result ∧
      result.Perm
        ((List.range cols).map fun c =>
          (flatIndex (invocationRow workgroup_id_x (c % 64)) (c : Int) (cols : Int),
            Real.exp (columnValue cols x (invocationRow workgroup_id_x) c) /
              ∑ j in Finset.range cols,
                Real.exp (columnValue cols x (invocationRow workgroup_id_x) j))) ∧
      (result.map Prod.snd).sum = 1 ∧
      ∀ p, p ∈ result → 0 < p.2 ∧ p.2 ≤ 1 := by
  obtain ⟨result, m, hp, hperm⟩ :=
    softmaxKernel_spec fuel Real.exp cols x (invocationRow workgroup_id_x) h1 hcols hfuel
  have hmap : ((List.range cols).map fun c =>
        (flatIndex (invocationRow workgroup_id_x (c % 64)) (c : Int) (cols : Int),
          Real.exp (columnValue cols x (invocationRow workgroup_id_x) c - m) /
            ∑ j in Finset.range cols,
              Real.exp (columnValue cols x (invocationRow workgroup_id_x) j - m))) =
      (List.range cols).map fun c =>
        (flatIndex (invocationRow workgroup_id_x (c % 64)) (c : Int) (cols : Int),
          Real.exp (columnValue cols x (invocationRow workgroup_id_x) c) /
            ∑ j in Finset.range cols,
              Real.exp (columnValue cols x (invocationRow workgroup_id_x) j)) := by
    apply List.map_congr_left
    intro c _
    rw [softmax_shift cols (columnValue cols x (invocationRow workgroup_id_x)) m c]
  rw [hmap] at hperm
  have hT : 0 < ∑ j in Finset.range cols,
      Real.exp (columnValue cols x (invocationRow workgroup_id_x) j) :=
    Finset.sum_pos (fun j _ => Real.exp_pos _) ⟨0, Finset.mem_range.2 (by omega)⟩
  refine ⟨result, hp, hperm, ?_, ?_⟩
  · rw [List.Perm.sum_eq (List.Perm.map Prod.snd hperm), List.map_map]
    have hcomp : (Prod.snd ∘ fun c =>
        (flatIndex (invocationRow workgroup_id_x (c % 64)) (c : Int) (cols : Int),
          Real.exp (columnValue cols x (invocationRow workgroup_id_x) c) /
            ∑ j in Finset.range cols,
              Real.exp (columnValue cols x (invocationRow workgroup_id_x) j))) =
        fun c => Real.exp (columnValue cols x (invocationRow workgroup_id_x) c) /
            ∑ j in Finset.range cols,
              Real.exp (columnValue cols x (invocationRow workgroup_id_x) j) := rfl
    rw [hcomp, list_sum_range, ← Finset.sum_div, div_self hT.ne']
  · intro p hp
    obtain ⟨c, hc, rfl⟩ := List.mem_map.1 ((List.Perm.mem_iff hperm).1 hp)
    rw [List.mem_range] at hc
    refine ⟨div_pos (Real.exp_pos _) hT, (div_le_one hT).2 ?_⟩
    exact Finset.single_le_sum
      (f := fun j => Real.exp (columnValue cols x (invocationRow workgroup_id_x) j))
      (fun j _ => (Real.exp_pos _).le) (Finset.mem_range.2 hc)

theorem exp_one_powers :
    (7.389056 : ℝ) < Real.exp 1 ^ 2 ∧ Real.exp 1 ^ 2 < 7.389057 ∧
    (20.08553 : ℝ) < Real.exp 1 ^ 3 ∧ Real.exp 1 ^ 3 < 20.08554 := by
  have hlo := Real.exp_one_gt_d9
  have hhi := Real.exp_one_lt_d9
  have hpos : (0 : ℝ) < Real.exp 1 := Real.exp_pos 1
  have h2lo : (7.389056 : ℝ) < Real.exp 1 ^ 2 := by nlinarith
  have h2hi : Real.exp 1 ^ 2 < 7.389057 := by nlinarith
  refine ⟨h2lo, h2hi, ?_, ?_⟩
  · have : Real.exp 1 ^ 3 = Real.exp 1 ^ 2 * Real.exp 1 := by ring
    rw [this]
    nlinarith
  · have : Real.exp 1 ^ 3 = Real.exp 1 ^ 2 * Real.exp 1 := by ring
    rw [this]
    nlinarith

theorem softmax_1_2_3_bounds :
    |Real.exp 1 / (Real.exp 1 + Real.exp 2 + Real.exp 3) - 0.0900| < 0.00005 ∧
    |Real.exp 2 / (Real.exp 1 + Real.exp 2 + Real.exp 3) - 0.2447| < 0.00005 ∧
    |Real.exp 3 / (Real.exp 1 + Real.exp 2 + Real.exp 3) - 0.6652| < 0.00005 := by
  have hlo := Real.exp_one_gt_d9
  have hhi := Real.exp_one_lt_d9
  obtain ⟨h2lo, h2hi, h3lo, h3hi⟩ := exp_one_powers
  have e2 : Real.exp 2 = Real.exp 1 ^ 2 := by
    rw [Real.exp_one_pow]
    norm_num
  have e3 : Real.exp 3 = Real.exp 1 ^ 3 := by
    rw [Real.exp_one_pow]
    norm_num
  rw [e2, e3]
  have hT : (0 : ℝ) < Real.exp 1 + Real.exp 1 ^ 2 + Real.exp 1 ^ 3 := by linarith
  refine ⟨?_, ?_, ?_⟩
  · rw [abs_lt]
    constructor
    · rw [lt_sub_iff_add_lt, lt_div_iff₀ hT]
      linarith
    · rw [sub_lt_iff_lt_add, div_lt_iff₀ hT]
      linarith
  · rw [abs_lt]
    constructor
    · rw [lt_sub_iff_add_lt, lt_div_iff₀ hT]
      linarith
    · rw [sub_lt_iff_lt_add, div_lt_iff₀ hT]
      linarith
  · rw [abs_lt]
    constructor
    · rw [lt_sub_iff_add_lt, lt_div_iff₀ hT]
      linarith
    · rw [sub_lt_iff_lt_add, div_lt_iff₀ hT]
      linarith

/-- C7 (witness): the single row `[1, 2, 3]`; the kernel stores the reference softmax values,
which are `0.0900`, `0.2447` and `0.6652` to within `0.00005`. -/
theorem main_softmax_row_1_2_3 :
    ∃ (result : List (Int × ℝ)) (v0 v1 v2 : ℝ),
      main 2 Real.exp 3 (fun i => (i : ℝ) + 1) 0 = some result ∧
      result.Perm [(0, v0), (1, v1), (2, v2)] ∧
      |v0 - 0.0900| < 0.00005 ∧ |v1 - 0.2447| < 0.00005 ∧ |v2 - 0.6652| < 0.00005 ∧
      (result.map Prod.snd).sum = 1 ∧ ∀ p, p ∈ result → 0 < p.2 ∧ p.2 ≤ 1 := by
  obtain ⟨result, hp, hperm, hsum, hbnd⟩ :=
    main_softmax 2 3 (fun i => (i : ℝ) + 1) 0 (by norm_num) (by norm_num) (by norm_num)
  have hv0 : columnValue 3 (fun i : Int => (i : ℝ) + 1) (invocationRow 0) 0 = 1 := by
    have hi : flatIndex (invocationRow 0 (0 % 64)) ((0 : Nat) : Int) ((3 : Nat) : Int) = 0 := by
      decide
    unfold columnValue getValue
    rw [hi]
    norm_num
  have hv1 : columnValue 3 (fun i : Int => (i : ℝ) + 1) (invocationRow 0) 1 = 2 := by
    have hi : flatIndex (invocationRow 0 (1 % 64)) ((1 : Nat) : Int) ((3 : Nat) : Int) = 1 := by
      decide
    unfold columnValue getValue
    rw [hi]
    norm_num
  have hv2 : columnValue 3 (fun i : Int => (i : ℝ) + 1) (invocationRow 0) 2 = 3 := by
    have hi : flatIndex (invocationRow 0 (2 % 64)) ((2 : Nat) : Int) ((3 : Nat) : Int) = 2 := by
      decide
    unfold columnValue getValue
    rw [hi]
    norm_num
  have hT : ∑ j in Finset.range 3,
      Real.exp (columnValue 3 (fun i : Int => (i : ℝ) + 1) (invocationRow 0) j) =
      Real.exp 1 + Real.exp 2 + Real.exp 3 := by
    rw [Finset.sum_range_succ, Finset.sum_range_succ, Finset.sum_range_one, hv0, hv1, hv2]
  have hi0 : flatIndex (invocationRow 0 (0 % 64)) ((0 : Nat) : Int) ((3 : Nat) : Int) = 0 := by
    decide
  have hi1 : flatIndex (invocationRow 0 (1 % 64)) ((1 : Nat) : Int) ((3 : Nat) : Int) = 1 := by
    decide
  have hi2 : flatIndex (invocationRow 0 (2 % 64)) ((2 : Nat) : Int) ((3 : Nat) : Int) = 2 := by
    decide
  have hlist : (List.range 3).map (fun c =>
      (flatIndex (invocationRow 0 (c % 64)) (c : Int) ((3 : Nat) : Int),
        Real.exp (columnValue 3 (fun i : Int => (i : ℝ) + 1) (invocationRow 0) c) /
          ∑ j in Finset.range 3,
            Real.exp (columnValue 3 (fun i : Int => (i : ℝ) + 1) (invocationRow 0) j))) =
      [(0, Real.exp 1 / (Real.exp 1 + Real.exp 2 + Real.exp 3)),
       (1, Real.exp 2 / (Real.exp 1 + Real.exp 2 + Real.exp 3)),
       (2, Real.exp 3 / (Real.exp 1 + Real.exp 2 + Real.exp 3))] := by
    have hr : List.range 3 = [0, 1, 2] := by decide
    rw [hr, hT]
    simp only [List.map_cons, List.map_nil]
    rw [hi0, hi1, hi2, hv0, hv1, hv2]
  rw [hlist] at hperm
  obtain ⟨b0, b1, b2⟩ := softmax_1_2_3_bounds
  exact ⟨result, _, _, _, hp, hperm, b0, b1, b2, hsum, hbnd⟩

theorem exp_argument_nonpos {α : Type} [LinearOrderedField α] (fuel cols : Nat) (x : Int → α) (row : Nat → Int)
    (wg : Workgroup α) (h1 : 1 ≤ cols) (hcols : cols + 64 ≤ 2147483648)
    (hfuel : cols / 64 + 1 < fuel) :
    ∃ wg' : Workgroup α, phase1 fuel cols x row wg = some wg' ∧
      ∀ c, c < cols → columnValue cols x row c - wg'.rowMaxShared ≤ 0 := by
  obtain ⟨wg', hp, _, _, _, hle, _⟩ := phase1_spec fuel cols x row wg h1 hcols hfuel
  exact ⟨wg', hp, fun c hc => sub_nonpos.2 (hle c hc)⟩

/-- C8 (failing input). For the one-column row holding the lowest finite `f32`,
`-16777215 * 2^104`, the argument `x[row, c] - rowMaxShared` that phases 2 and 3 pass to `exp` is
negative for the only column: no column has the argument `0`. -/
theorem exp_argument_lowest_f32_row :
    ∃ wg : Workgroup ℚ,
      phase1 2 1 (fun _ => -(16777215 * 2 ^ 104)) (invocationRow 0) ⟨fun _ => 0, 0, 0⟩ = some wg ∧
      ∀ c, c < 1 →
        columnValue 1 (fun _ => (-(16777215 * 2 ^ 104) : ℚ)) (invocationRow 0) c -
          wg.rowMaxShared = -46638528859811704183484516925440 := by
  obtain ⟨wg, hp, hm, _, hv⟩ := phase1_lowest_f32
  refine ⟨wg, hp, fun c _ => ?_⟩
  rw [hv c, hm]
  norm_num

/-! ## The generated kernel: the rounds of the two reductions -/

theorem shiftRight_one (n : Nat) : n >>> 1 = n / 2 := by
  rw [Nat.shiftRight_eq_div_pow, pow_one]

theorem maxReduceRounds_of_lt (n : Nat) (h : 2 ≤ n) :
    maxReduceRounds n = (n / 2, n / 2 + n % 2) :: maxReduceRounds (n / 2 + n % 2) := by
  rw [maxReduceRounds, shiftRight_one, Nat.and_one_is_mod, if_pos (by omega)]

theorem maxReduceRounds_of_le_one (n : Nat) (h : n ≤ 1) : maxReduceRounds n = [] := by
  rw [maxReduceRounds, shiftRight_one, if_neg (by omega)]

theorem maxReduce_eq_foldl {α : Type} [LinearOrderedField α] :
    ∀ (n : Nat) (threadShared : Nat → α),
      maxReduce n threadShared = (maxReduceRounds n).foldl maxReduceRound threadShared := by
  intro n
  induction n using Nat.strong_induction_on with
  | _ n ih =>
    intro threadShared
    by_cases h : 2 ≤ n
    · rw [maxReduceRounds_of_lt n h, List.foldl_cons, ← ih (n / 2 + n % 2) (by omega),
        maxReduce, shiftRight_one, Nat.and_one_is_mod, if_pos (by omega)]
      rfl
    · rw [maxReduceRounds_of_le_one n (by omega), maxReduce, shiftRight_one, if_neg (by omega)]
      rfl

theorem sumReduce_eq_foldl {α : Type} [LinearOrderedField α] :
    ∀ (c : Nat) (threadShared : Nat → α),
      sumReduce c threadShared = (sumReduceRounds c).foldl sumReduceRound threadShared := by
  intro c
  induction c using Nat.strong_induction_on with
  | _ c ih =>
    intro threadShared
    by_cases h : 0 < c
    · rw [sumReduceRounds, if_pos h, List.foldl_cons, shiftRight_one,
        ← ih (c / 2) (by omega), sumReduce, if_pos h, shiftRight_one]
      rfl
    · rw [sumReduceRounds, if_neg h, sumReduce, if_neg h]
      rfl

theorem maxReduceRounds_bounds :
    ∀ (n : Nat) (round : Nat × Nat), round ∈ maxReduceRounds n →
      0 < round.1 ∧ round.1 ≤ round.2 ∧ round.2 + round.1 ≤ n := by
  intro n
  induction n using Nat.strong_induction_on with
  | _ n ih =>
    intro round hr
    by_cases h : 2 ≤ n
    · rw [maxReduceRounds_of_lt n h, List.mem_cons] at hr
      rcases hr with rfl | hr
      · simp only
        omega
      · have := ih (n / 2 + n % 2) (by omega) round hr
        omega
    · rw [maxReduceRounds_of_le_one n (by omega)] at hr
      cases hr

theorem length_maxReduceRounds : ∀ n : Nat, (maxReduceRounds n).length = Nat.clog 2 n := by
  intro n
  induction n using Nat.strong_induction_on with
  | _ n ih =>
    by_cases h : 2 ≤ n
    · rw [maxReduceRounds_of_lt n h, List.length_cons, ih (n / 2 + n % 2) (by omega),
        Nat.clog_of_two_le (by norm_num) h]
      congr 2
      omega
    · rw [maxReduceRounds_of_le_one n (by omega), Nat.clog_of_right_le_one (by omega)]
      rfl

theorem sumReduceRounds_WG : sumReduceRounds (WG >>> 1) = [32, 16, 8, 4, 2, 1] := by
  have h : WG >>> 1 = 32 := by decide
  rw [h]
  rw [sumReduceRounds, if_pos (by norm_num), shiftRight_one]
  rw [sumReduceRounds, if_pos (by norm_num), shiftRight_one]
  rw [sumReduceRounds, if_pos (by norm_num), shiftRight_one]
  rw [sumReduceRounds, if_pos (by norm_num), shiftRight_one]
  rw [sumReduceRounds, if_pos (by norm_num), shiftRight_one]
  rw [sumReduceRounds, if_pos (by norm_num), shiftRight_one]
  rw [sumReduceRounds, if_neg (by norm_num)]

/-- C17. In every round of the phase-1 max reduction, for every `cols`, with `currSize` and
`reduceSize` the values the loop body sees: an active invocation (`lindex < currSize`) writes its
own slot `lindex`, in `[0, currSize)`, and reads from another invocation the slot
`lindex + reduceSize`, which lies in `[reduceSize, reduceSize + currSize)` with
`currSize ≤ reduceSize`, so it is none of the slots written in the round, and which is below
`min(cols, 64)`, so it is a slot that the store `if (lindex < cols)` before the loop initialised;
that store writes the slots below `min(cols, 64)` and leaves every slot `lindex ≥ cols` as it
was. The rounds are those of the loop: `maxReduce` is the fold of the round body over them. -/
theorem maxReduce_rounds_disjoint {α : Type} [LinearOrderedField α] (cols : Nat) :
    (∀ threadShared : Nat → α,
      maxReduce (min cols WG) threadShared =
        (maxReduceRounds (min cols WG)).foldl maxReduceRound threadShared) ∧
    (∀ round, round ∈ maxReduceRounds (min cols WG) →
      round.1 ≤ round.2 ∧
      ∀ lindex, lindex < round.1 →
        lindex < min cols 64 ∧
        round.2 ≤ lindex + round.2 ∧ lindex + round.2 < round.2 + round.1 ∧
        round.1 ≤ lindex + round.2 ∧
        lindex + round.2 < min cols 64) ∧
    (∀ (threadShared threadMax : Nat → α) (i : Nat),
      (i < min cols 64 →
        storeAll threadShared
          (fun lindex => if lindex < cols then some (threadMax lindex) else none) i =
          threadMax i) ∧
      (cols ≤ i →
        storeAll threadShared
          (fun lindex => if lindex < cols then some (threadMax lindex) else none) i =
          threadShared i)) := by
  refine ⟨fun threadShared => maxReduce_eq_foldl _ threadShared, fun round hr => ?_,
    fun threadShared threadMax i => ⟨fun hi => ?_, fun hi => ?_⟩⟩
  · obtain ⟨h0, h1, h2⟩ := maxReduceRounds_bounds _ round hr
    have hW : min cols WG = min cols 64 := rfl
    rw [hW] at h2
    refine ⟨h1, fun lindex hl => ?_⟩
    omega
  · have hw : i < WG := lt_of_lt_of_le hi (min_le_right _ _)
    have hc : i < cols := lt_of_lt_of_le hi (min_le_left _ _)
    rw [storeAll_apply, if_pos hw, if_pos hc, Option.getD_some]
  · rw [storeAll_apply, if_neg (not_lt.2 hi)]
    simp

/-- C18. The phase-1 reduction loop terminates for every starting window `n = min(cols, 64)`:
its rounds form a finite list and `maxReduce` is the fold of the round body over it. While
`reduceSize ≥ 2` a round is run and takes `reduceSize` to `ceil(reduceSize / 2)`, which is
smaller; the loop exits exactly when `reduceSize ≤ 1` (no round for `n ≤ 1`); the number of rounds
is `ceil(log2 n)`, at most 6. The phase-2 loop runs exactly the 6 rounds
`currSize = 32, 16, 8, 4, 2, 1`. -/
theorem reduce_loops_rounds {α : Type} [LinearOrderedField α] (cols : Nat) :
    (∀ threadShared : Nat → α,
      maxReduce (min cols WG) threadShared =
        (maxReduceRounds (min cols WG)).foldl maxReduceRound threadShared) ∧
    (∀ reduceSize, 2 ≤ reduceSize →
      maxReduceRounds reduceSize =
        (reduceSize / 2, (reduceSize + 1) / 2) :: maxReduceRounds ((reduceSize + 1) / 2) ∧
      (reduceSize + 1) / 2 < reduceSize ∧ 2 * ((reduceSize + 1) / 2) - 1 ≤ reduceSize ∧
      reduceSize ≤ 2 * ((reduceSize + 1) / 2)) ∧
    (∀ reduceSize, maxReduceRounds reduceSize = [] ↔ reduceSize ≤ 1) ∧
    (maxReduceRounds (min cols WG)).length = Nat.clog 2 (min cols WG) ∧
    (maxReduceRounds (min cols WG)).length ≤ 6 ∧
    (∀ threadShared : Nat → α,
      sumReduce (WG >>> 1) threadShared =
        (sumReduceRounds (WG >>> 1)).foldl sumReduceRound threadShared) ∧
    sumReduceRounds (WG >>> 1) = [32, 16, 8, 4, 2, 1] ∧
    (sumReduceRounds (WG >>> 1)).length = 6 := by
  refine ⟨fun threadShared => maxReduce_eq_foldl _ threadShared, fun reduceSize h => ?_,
    fun reduceSize => ?_, length_maxReduceRounds _, ?_,
    fun threadShared => sumReduce_eq_foldl _ threadShared, sumReduceRounds_WG, ?_⟩
  · have hceil : reduceSize / 2 + reduceSize % 2 = (reduceSize + 1) / 2 := by omega
    rw [maxReduceRounds_of_lt reduceSize h, hceil]
    exact ⟨rfl, by omega, by omega, by omega⟩
  · constructor
    · intro hnil
      by_contra hgt
      rw [maxReduceRounds_of_lt reduceSize (by omega)] at hnil
      cases hnil
    · exact maxReduceRounds_of_le_one reduceSize
  · rw [length_maxReduceRounds]
    have h64 : min cols WG ≤ 2 ^ 6 := by
      have : min cols WG ≤ WG := min_le_right _ _
      exact this
    calc Nat.clog 2 (min cols WG) ≤ Nat.clog 2 (2 ^ 6) := Nat.clog_mono_right 2 h64
      _ = 6 := Nat.clog_pow 2 6 (by norm_num)
  · rw [sumReduceRounds_WG]
    rfl

/-! ## The program descriptor -/

theorem jsIndex_last (dims : List Nat) (hne : dims ≠ []) :
    jsIndex dims ((dims.length : Int) - 1) = some (dims.getLast hne) := by
  have hlen : 0 < dims.length := List.length_pos.2 hne
  have h0 : (0 : Int) ≤ (dims.length : Int) - 1 := by omega
  have ht : ((dims.length : Int) - 1).toNat = dims.length - 1 := by omega
  unfold jsIndex
  rw [if_pos h0, ht, List.getLast_eq_getElem]
  exact List.getElem?_eq_getElem _

theorem roundHalfEven_intCast (z : Int) : roundHalfEven (z : ℚ) = z := by
  unfold roundHalfEven
  simp

theorem roundHalfEven_of_lt (q : ℚ) (f : Int) (h1 : (f : ℚ) ≤ q) (h2 : q - f < 1 / 2) :
    roundHalfEven q = f := by
  have hf : ⌊q⌋ = f := Int.floor_eq_iff.2 ⟨h1, by linarith⟩
  unfold roundHalfEven
  simp only [hf]
  rw [if_pos h2]

theorem roundHalfEven_of_gt (q : ℚ) (f : Int) (h1 : 1 / 2 < q - f) (h2 : q < f + 1) :
    roundHalfEven q = f + 1 := by
  have hf : ⌊q⌋ = f := Int.floor_eq_iff.2 ⟨by linarith, h2⟩
  unfold roundHalfEven
  simp only [hf]
  rw [if_neg (not_lt.2 h1.le), if_pos h1]

theorem roundHalfEven_tie_even (q : ℚ) (f : Int) (h1 : q = f + 1 / 2) (h2 : f % 2 = 0) :
    roundHalfEven q = f := by
  have hf : ⌊q⌋ = f := Int.floor_eq_iff.2 ⟨by linarith, by linarith⟩
  have hr : q - f = 1 / 2 := by linarith
  unfold roundHalfEven
  simp only [hf, hr, lt_irrefl, if_false, h2, if_true]

theorem log2_eq (q : ℚ) (e : Int) (h1 : (2 : ℚ) ^ e ≤ q) (h2 : q < (2 : ℚ) ^ (e + 1)) :
    Int.log 2 q = e := by
  have hpos : 0 < q := lt_of_lt_of_le (by positivity) h1
  have ha : e ≤ Int.log 2 q := (Int.zpow_le_iff_le_log (by norm_num) hpos).1 (by exact_mod_cast h1)
  have hb : Int.log 2 q < e + 1 := (Int.lt_zpow_iff_log_lt (by norm_num) hpos).1 (by exact_mod_cast h2)
  omega

theorem roundDouble_eval (q : ℚ) (e m : Int) (h1 : (2 : ℚ) ^ e ≤ q) (h2 : q < (2 : ℚ) ^ (e + 1))
    (he : -1022 ≤ e) (hm : roundHalfEven (q / 2 ^ (e - 52)) = m)
    (hr : |(m : ℚ) * 2 ^ (e - 52)| < 2 ^ (1024 : Nat)) :
    roundDouble q = some ((m : ℚ) * 2 ^ (e - 52)) := by
  have hpos : 0 < q := lt_of_lt_of_le (by positivity) h1
  unfold roundDouble
  rw [if_neg hpos.ne']
  simp only [abs_of_pos hpos, log2_eq q e h1 h2, max_eq_left he, hm]
  rw [if_neg (not_le.2 hr)]

theorem roundDouble_natCast (n : Nat) (hn : n ≤ 2 ^ 53) : roundDouble (n : ℚ) = some (n : ℚ) := by
  rcases Nat.eq_zero_or_pos n with h0 | hpos
  · subst h0
    simp [roundDouble]
  have hk1 : 2 ^ Nat.log 2 n ≤ n := Nat.pow_log_le_self 2 hpos.ne'
  have hk2 : n < 2 ^ (Nat.log 2 n + 1) := Nat.lt_pow_succ_log_self (by norm_num) n
  generalize Nat.log 2 n = k at hk1 hk2
  have hk : k ≤ 53 := by
    have : 2 ^ k ≤ 2 ^ 53 := le_trans hk1 hn
    exact (Nat.pow_le_pow_iff_right (by norm_num)).1 this
  have hulp : ((2 : ℚ) ^ ((k : Int) - 52)) ≠ 0 := by positivity
  obtain ⟨z, hz⟩ : ∃ z : Int, (n : ℚ) / 2 ^ ((k : Int) - 52) = z := by
    rcases Nat.lt_or_ge k 53 with hlt | hge
    · refine ⟨(n : Int) * 2 ^ (52 - k), ?_⟩
      have : ((k : Int) - 52) = -((52 - k : Nat) : Int) := by omega
      rw [this, zpow_neg, div_inv_eq_mul, zpow_natCast]
      push_cast
      rfl
    · have hk53 : k = 53 := le_antisymm hk hge
      subst hk53
      have hn53 : n = 2 ^ 53 := le_antisymm hn hk1
      refine ⟨2 ^ 52, ?_⟩
      rw [hn53]
      norm_num
  have hval : (z : ℚ) * 2 ^ ((k : Int) - 52) = n := by
    rw [← hz, div_mul_cancel₀ _ hulp]
  rw [roundDouble_eval (n : ℚ) k z (by exact_mod_cast hk1) (by exact_mod_cast hk2) (by omega)
    (by rw [hz]; exact roundHalfEven_intCast z) ?_, hval]
  rw [hval, abs_of_nonneg (by positivity)]
  calc (n : ℚ) ≤ 2 ^ 53 := by exact_mod_cast hn
    _ < 2 ^ (1024 : Nat) := by norm_num

theorem jsMul_some (a : ℚ) (b : Nat) : jsMul (some a) b = roundDouble (a * (b : ℚ)) := by
  unfold jsMul
  exact Option.some_bind _ _

theorem jsDiv_some_pos (a : ℚ) (n : Nat) (hn : 0 < n) :
    jsDiv (some a) (some n) = roundDouble (a / (n : ℚ)) := by
  cases n with
  | zero => exact absurd hn (lt_irrefl 0)
  | succ n =>
    unfold jsDiv
    exact Option.some_bind _ _

theorem foldl_jsMul_exact (dims : List Nat) (hpos : ∀ d ∈ dims, 0 < d) (acc : Nat) (hacc : 0 < acc)
    (h : acc * dims.prod ≤ 2 ^ 53) :
    dims.foldl jsMul (some (acc : ℚ)) = some ((acc * dims.prod : Nat) : ℚ) := by
  induction dims generalizing acc with
  | nil => simp
  | cons d ds ih =>
    have hd : 0 < d := hpos d (List.mem_cons_self d ds)
    have hds : 0 < ds.prod := List.prod_pos (fun x hx => hpos x (List.mem_cons_of_mem d hx))
    rw [List.prod_cons, ← Nat.mul_assoc] at h
    have hstep : acc * d ≤ 2 ^ 53 := le_trans (Nat.le_mul_of_pos_right _ hds) h
    have hmul : jsMul (some (acc : ℚ)) d = some ((acc * d : Nat) : ℚ) := by
      rw [jsMul_some, ← Nat.cast_mul]
      exact roundDouble_natCast _ hstep
    rw [List.foldl_cons, hmul, ih (fun x hx => hpos x (List.mem_cons_of_mem d hx)) (acc * d)
      (Nat.mul_pos hacc hd) h, List.prod_cons, Nat.mul_assoc]

theorem sizeNumber_eq_size (dims : List Nat) (hpos : ∀ d ∈ dims, 0 < d)
    (h : ShapeUtil.size dims ≤ 2 ^ 53) :
    ShapeUtil.sizeNumber dims = some ((ShapeUtil.size dims : Nat) : ℚ) := by
  have := foldl_jsMul_exact dims hpos 1 Nat.one_pos (by rwa [Nat.one_mul])
  rw [Nat.one_mul, Nat.cast_one] at this
  exact this

theorem jsDiv_size_last (dims : List Nat) (hne : dims ≠ []) (hpos : ∀ d ∈ dims, 0 < d)
    (hsize : ShapeUtil.size dims ≤ 2 ^ 53) :
    jsDiv (ShapeUtil.sizeNumber dims) (some (dims.getLast hne)) =
      some ((dims.dropLast.prod : ℕ) : ℚ) := by
  have hlast : 0 < dims.getLast hne := hpos _ (List.getLast_mem hne)
  have hsplit : dims.dropLast.prod * dims.getLast hne = ShapeUtil.size dims := by
    unfold ShapeUtil.size
    conv_rhs => rw [← List.dropLast_append_getLast hne]
    simp
  have hrows : dims.dropLast.prod ≤ 2 ^ 53 :=
    le_trans (Nat.le_mul_of_pos_right _ hlast) (hsplit ▸ hsize)
  have hq : ((dims.getLast hne : ℕ) : ℚ) ≠ 0 := Nat.cast_ne_zero.2 hlast.ne'
  rw [sizeNumber_eq_size dims hpos hsize, ← hsplit, jsDiv_some_pos _ _ hlast, Nat.cast_mul,
    mul_div_assoc, div_self hq, mul_one]
  exact roundDouble_natCast _ hrows

theorem sizeNumber_94906267 :
    ShapeUtil.sizeNumber [94906267, 94906267] = some 9007199515875288 := by
  have h1 : jsMul (some 1) 94906267 = some 94906267 := by
    rw [jsMul_some, one_mul, roundDouble_natCast 94906267 (by norm_num), Nat.cast_ofNat]
  have h2 : jsMul (some 94906267) 94906267 = some 9007199515875288 := by
    rw [jsMul_some, roundDouble_eval _ 53 4503599757937644 (by norm_num) (by norm_num)
      (by norm_num) (roundHalfEven_tie_even _ _ (by norm_num) (by decide))
      (by norm_num [abs_of_pos])]
    norm_num
  unfold ShapeUtil.sizeNumber
  rw [List.foldl_cons, List.foldl_cons, List.foldl_nil, h1, h2]

theorem rows_94906267 :
    jsDiv (ShapeUtil.sizeNumber [94906267, 94906267]) (some 94906267) =
      some (94906267 - 1 / 67108864) := by
  rw [sizeNumber_94906267, jsDiv_some_pos _ _ (by norm_num),
    roundDouble_eval _ 26 6369051764850687 (by norm_num) (by norm_num) (by norm_num)
    (roundHalfEven_of_lt _ 6369051764850687 (by norm_num) (by norm_num))
    (by norm_num [abs_of_pos])]
  norm_num

/-- C9 (counterexample). The shape `[94906267, 94906267]` with `axis = -1` has positive dimensions
and its axis resolves to the last one, yet `dispatchGroup()` is not `x: 94906267`, the product of
the remaining dimensions: the element count `94906267 * 94906267 = 9007199515875289` is above
`2^53` and no double, `ShapeUtil.size` returns `9007199515875288`, and `rows = outputSize / cols`
is the double `94906267 - 2^-26`, which prints as `94906266.99999999`. -/
theorem createSoftmaxProgramInfo_rows_rounded :
    (∀ d ∈ ([94906267, 94906267] : List Nat), 0 < d) ∧
    normalizeAxis [94906267, 94906267] (-1) =
      ((([94906267, 94906267] : List Nat).length : Nat) : Int) - 1 ∧
    ShapeUtil.sizeNumber [94906267, 94906267] = some 9007199515875288 ∧
    ∃ info : ProgramInfo Unit,
      createSoftmaxProgramInfo Unit ⟨[94906267, 94906267], 1⟩ ⟨-1, "-1"⟩ = .ok info ∧
      info.dispatchGroup () = { x := some (94906267 - 1 / 67108864) } ∧
      info.dispatchGroup () ≠
        { x := some ((([94906267, 94906267] : List Nat).dropLast.prod : ℕ) : ℚ) } := by
  have hnot : ¬ normalizeAxis [94906267, 94906267] (-1) <
      ((([94906267, 94906267] : List Nat).length : Nat) : Int) - 1 := by decide
  have hcols : jsIndex [94906267, 94906267] (normalizeAxis [94906267, 94906267] (-1)) =
      some 94906267 := by decide
  refine ⟨by decide, by decide, sizeNumber_94906267, ?_⟩
  unfold createSoftmaxProgramInfo
  simp only [hnot, if_false]
  refine ⟨_, rfl, ?_, ?_⟩
  · show DispatchGroup.mk (jsDiv (ShapeUtil.sizeNumber [94906267, 94906267])
      (jsIndex [94906267, 94906267] (normalizeAxis [94906267, 94906267] (-1)))) = _
    rw [hcols, rows_94906267]
  · show DispatchGroup.mk (jsDiv (ShapeUtil.sizeNumber [94906267, 94906267])
      (jsIndex [94906267, 94906267] (normalizeAxis [94906267, 94906267] (-1)))) ≠ _
    rw [hcols, rows_94906267]
    intro h
    have hx := Option.some.inj (congrArg DispatchGroup.x h)
    norm_num [List.dropLast] at hx

/-- C9 (amended). For an input shape of rank at least one whose dimensions are all positive, whose
total element count is at most `2^53` and whose axis normalizes to `rank - 1`,
`createSoftmaxProgramInfo` returns a descriptor with `cols = dims[rank - 1]` (the text filling the
`cols` holes of the shader), `dispatchGroup()` equal to `x: rows` where `rows` is the natural number
product of the remaining dimensions, with `rows * cols` the total element count, and one output
with the dims and data type of the input. -/
theorem createSoftmaxProgramInfo_rows_cols (H : Type) (input : TensorView)
    (attributes : SoftmaxAttributes) (hne : input.dims ≠ [])
    (hpos : ∀ d ∈ input.dims, 0 < d)
    (hsize : ShapeUtil.size input.dims ≤ 2 ^ 53)
    (haxis : normalizeAxis input.dims attributes.axis = (input.dims.length : Int) - 1) :
    ∃ info : ProgramInfo H,
      createSoftmaxProgramInfo H input attributes = .ok info ∧
      (∀ h, info.getShaderSource h = shaderSourceText (toString (input.dims.getLast hne))) ∧
      info.dispatchGroup () = { x := some ((input.dims.dropLast.prod : ℕ) : ℚ) } ∧
      input.dims.dropLast.prod * input.dims.getLast hne = ShapeUtil.size input.dims ∧
      info.outputs =
        [{ dims := input.dims, dataType := input.dataType, gpuDataType := GpuDataType.default }] := by
  have hnot : ¬ normalizeAxis input.dims attributes.axis < (input.dims.length : Int) - 1 := by
    rw [haxis]
    exact lt_irrefl _
  have hsplit : input.dims.dropLast.prod * input.dims.getLast hne = ShapeUtil.size input.dims := by
    unfold ShapeUtil.size
    conv_rhs => rw [← List.dropLast_append_getLast hne]
    simp
  unfold createSoftmaxProgramInfo
  simp only [hnot, if_false]
  refine ⟨_, rfl, fun h => ?_, ?_, hsplit, rfl⟩
  · show shaderSourceText (jsToString (jsIndex input.dims (normalizeAxis input.dims attributes.axis))) = _
    rw [haxis, jsIndex_last input.dims hne]
    rfl
  · show DispatchGroup.mk (jsDiv (ShapeUtil.sizeNumber input.dims)
      (jsIndex input.dims (normalizeAxis input.dims attributes.axis))) = _
    rw [haxis, jsIndex_last input.dims hne, jsDiv_size_last input.dims hne hpos hsize]

/-- C9 (witness): the shape `[2, 3, 4]` with `axis = -1`, of 24 elements. -/
theorem createSoftmaxProgramInfo_rows_cols_witness :
    ShapeUtil.size [2, 3, 4] ≤ 2 ^ 53 ∧
    ∃ info : ProgramInfo Unit,
      createSoftmaxProgramInfo Unit ⟨[2, 3, 4], 1⟩ ⟨-1, "-1"⟩ = .ok info ∧
      (∀ h, info.getShaderSource h =
        shaderSourceText (toString (([2, 3, 4] : List Nat).getLast (by decide)))) ∧
      info.dispatchGroup () = { x := some (((([2, 3, 4] : List Nat).dropLast.prod : ℕ)) : ℚ) } ∧
      ([2, 3, 4] : List Nat).dropLast.prod * ([2, 3, 4] : List Nat).getLast (by decide) =
        ShapeUtil.size [2, 3, 4] ∧
      info.outputs = [{ dims := [2, 3, 4], dataType := 1, gpuDataType := GpuDataType.default }] :=
  ⟨by decide,
    createSoftmaxProgramInfo_rows_cols Unit ⟨[2, 3, 4], 1⟩ ⟨-1, "-1"⟩ (by decide) (by decide)
      (by decide) (by decide)⟩

theorem getShaderSource_of_ok (H : Type) (x : TensorView) (a : SoftmaxAttributes)
    (i : ProgramInfo H) (hi : createSoftmaxProgramInfo H x a = .ok i) (h : H) :
    i.getShaderSource h =
      shaderSourceText (jsToString (jsIndex x.dims (normalizeAxis x.dims a.axis))) := by
  unfold createSoftmaxProgramInfo at hi
  by_cases hlt : normalizeAxis x.dims a.axis < (x.dims.length : Int) - 1
  · simp only [hlt, if_true] at hi
    cases hi
  · simp only [hlt, if_false] at hi
    cases hi
    rfl

theorem registered_loader (H : Type) (x : TensorView) (a : SoftmaxAttributes)
    (p : ProgramInfoLoader H)
    (hp : (softmax (registeringContext H (some [x])) a []).2 = [p]) :
    p = softmaxLoader H (some [x]) a := by
  cases hv : validateInputs (some [x]) with
  | error e =>
    rw [softmax_of_error (registeringContext H (some [x])) a [] e hv] at hp
    cases hp
  | ok u =>
    have hreg : softmax (registeringContext H (some [x])) a [] =
        (.ok (), [] ++ [softmaxLoader H (some [x]) a]) :=
      softmax_of_ok (registeringContext H (some [x])) a [] u hv
    rw [hreg] at hp
    exact (List.cons.inj hp).1.symm

/-- C10 (counterexample). Two invocations with the same attributes on float inputs of shapes
`[1, 3]` and `[1, 4]` hand `context.compute` loaders with the same name, cache hint and input
types, and the shader sources their `get()` produces differ. -/
theorem softmax_same_key_different_source :
    ∃ (p q : ProgramInfoLoader Unit) (i j : ProgramInfo Unit),
      (softmax (registeringContext Unit (some [⟨[1, 3], 1⟩])) ⟨1, "1"⟩ []).2 = [p] ∧
      (softmax (registeringContext Unit (some [⟨[1, 4], 1⟩])) ⟨1, "1"⟩ []).2 = [q] ∧
      p.name = q.name ∧ p.cacheHint = q.cacheHint ∧ p.inputTypes = q.inputTypes ∧
      p.get () = .ok i ∧ q.get () = .ok j ∧
      i.getShaderSource () ≠ j.getShaderSource () := by
  refine ⟨_, _, _, _, rfl, rfl, rfl, rfl, rfl, rfl, rfl, ?_⟩
  exact shaderSourceText_ne_of_head_ne (Char.ofNat 51) (Char.ofNat 52) "" "" (by decide)

/-- C10 (amended). For any two softmax invocations, in particular any two with the same loader
key, whose inputs have the same size `cols` at the normalized axis, the shader sources produced by
the `get()` of the loaders handed to `context.compute` are identical: the source text depends on
the invocation through `cols` alone. -/
theorem softmax_source_eq_of_cols_eq (H : Type) (x y : TensorView) (a b : SoftmaxAttributes)
    (p q : ProgramInfoLoader H) (i j : ProgramInfo H)
    (hp : (softmax (registeringContext H (some [x])) a []).2 = [p])
    (hq : (softmax (registeringContext H (some [y])) b []).2 = [q])
    (hi : p.get () = .ok i) (hj : q.get () = .ok j)
    (hcols : jsIndex x.dims (normalizeAxis x.dims a.axis) =
      jsIndex y.dims (normalizeAxis y.dims b.axis)) :
    ∀ h k, i.getShaderSource h = j.getShaderSource k := by
  intro h k
  rw [registered_loader H x a p hp] at hi
  rw [registered_loader H y b q hq] at hj
  rw [getShaderSource_of_ok H x a i hi h, getShaderSource_of_ok H y b j hj k, hcols]

/-- C10 (witness): the shapes `[2, 3]` with `axis = -1` and `[5, 3]` with `axis = 1`, both with
`cols = 3`. -/
theorem softmax_source_eq_of_cols_eq_witness :
    jsIndex [2, 3] (normalizeAxis [2, 3] (-1)) = jsIndex [5, 3] (normalizeAxis [5, 3] 1) ∧
    ∀ h k : Unit,
      (ProgramInfo.getShaderSource (H := Unit)
        ⟨"Softmax", [0], none, [⟨[2, 3], 1, 0⟩],
          fun _ => shaderSourceText (jsToString (jsIndex [2, 3] (normalizeAxis [2, 3] (-1)))),
          fun _ => ⟨jsDiv (ShapeUtil.sizeNumber [2, 3]) (jsIndex [2, 3] (normalizeAxis [2, 3] (-1)))⟩⟩ h) =
      (ProgramInfo.getShaderSource (H := Unit)
        ⟨"Softmax", [0], none, [⟨[5, 3], 1, 0⟩],
          fun _ => shaderSourceText (jsToString (jsIndex [5, 3] (normalizeAxis [5, 3] 1))),
          fun _ => ⟨jsDiv (ShapeUtil.sizeNumber [5, 3]) (jsIndex [5, 3] (normalizeAxis [5, 3] 1))⟩⟩ k) :=
  ⟨by decide,
    softmax_source_eq_of_cols_eq Unit ⟨[2, 3], 1⟩ ⟨[5, 3], 1⟩ ⟨-1, "-1"⟩ ⟨1, "1"⟩
      (softmaxLoader Unit (some [⟨[2, 3], 1⟩]) ⟨-1, "-1"⟩)
      (softmaxLoader Unit (some [⟨[5, 3], 1⟩]) ⟨1, "1"⟩) _ _ rfl rfl rfl rfl (by decide)⟩

/-! ## Grouped convolution: coordinates and channels -/

theorem wrapU32_of_range (n : Int) (hlo : 0 ≤ n) (hhi : n < 4294967296) :
    (wrapU32 n : Int) = n := by
  unfold wrapU32
  omega

theorem inputCoordinate_cases (o s p k d : Nat) (h1 : o * s + k * d < 4294967296)
    (hp : p ≤ 4294967296) :
    ((o : Int) * s - p + (k : Int) * d < 0 ∧
      (inputCoordinate o s p k d : Int) = (o : Int) * s - p + (k : Int) * d + 4294967296) ∨
    (0 ≤ (o : Int) * s - p + (k : Int) * d ∧
      (inputCoordinate o s p k d : Int) = (o : Int) * s - p + (k : Int) * d) := by
  unfold inputCoordinate wrapU32
  have hA : ((o * s : Nat) : Int) = (o : Int) * s := by push_cast; ring
  have hB : ((k * d : Nat) : Int) = (k : Int) * d := by push_cast; ring
  rw [← hA, ← hB]
  generalize o * s = A at *
  generalize k * d = B at *
  simp only []
  omega

/-- C12. With the coordinate arithmetic of the kernel in `u32`, for every output coordinate `o`,
stride `s`, pad `p`, kernel offset `k`, dilation `d` and input size `H` with
`o*s + k*d < 2^32` and `p + H ≤ 2^32`, and `t = o*s - p + k*d` the true integer coordinate: the
kernel skips the term exactly when `t` is outside `[0, H)`; when it does not skip, the `u32` value
it indexes with is `t`; the test `< 0u` is never true, and a negative `t` is skipped all the same,
its wrapped value being at least `H`. -/
theorem inputCoordinate_skip_iff (o s p k d H : Nat) (h1 : o * s + k * d < 4294967296)
    (h2 : p + H ≤ 4294967296) :
    (skipsTerm (inputCoordinate o s p k d) H ↔
      ((o : Int) * s - p + (k : Int) * d < 0 ∨ (H : Int) ≤ (o : Int) * s - p + (k : Int) * d)) ∧
    (¬ skipsTerm (inputCoordinate o s p k d) H →
      (inputCoordinate o s p k d : Int) = (o : Int) * s - p + (k : Int) * d) ∧
    ¬ inputCoordinate o s p k d < 0 ∧
    ((o : Int) * s - p + (k : Int) * d < 0 →
      H ≤ inputCoordinate o s p k d ∧ skipsTerm (inputCoordinate o s p k d) H) := by
  have hc := inputCoordinate_cases o s p k d h1 (by omega)
  have hA : (o : Int) * s = ((o * s : Nat) : Int) := by push_cast; ring
  have hB : (k : Int) * d = ((k * d : Nat) : Int) := by push_cast; ring
  rw [hA, hB] at hc ⊢
  unfold skipsTerm
  generalize inputCoordinate o s p k d = c at *
  generalize o * s = A at *
  generalize k * d = B at *
  refine ⟨?_, ?_, ?_, ?_⟩ <;> omega

/-- C12 (witness): the coordinate facts at a corner (`o = 0`, pad 1, size 3), and the corner
outputs of the 3x3 all-ones input and kernel with pad 1, stride 1, dilation 1: the invocations
0, 2, 6 and 8 each accumulate exactly 4 terms, the centre 9. -/
theorem inputCoordinate_skip_iff_corner :
    ((skipsTerm (inputCoordinate 0 1 1 0 1) 3 ↔
      (((0 : Nat) : Int) * (1 : Nat) - (1 : Nat) + ((0 : Nat) : Int) * (1 : Nat) < 0 ∨
        ((3 : Nat) : Int) ≤
          ((0 : Nat) : Int) * (1 : Nat) - (1 : Nat) + ((0 : Nat) : Int) * (1 : Nat))) ∧
    (¬ skipsTerm (inputCoordinate 0 1 1 0 1) 3 →
      (inputCoordinate 0 1 1 0 1 : Int) =
        ((0 : Nat) : Int) * (1 : Nat) - (1 : Nat) + ((0 : Nat) : Int) * (1 : Nat)) ∧
    ¬ inputCoordinate 0 1 1 0 1 < 0 ∧
    (((0 : Nat) : Int) * (1 : Nat) - (1 : Nat) + ((0 : Nat) : Int) * (1 : Nat) < 0 →
      3 ≤ inputCoordinate 0 1 1 0 1 ∧ skipsTerm (inputCoordinate 0 1 1 0 1) 3)) ∧
    inputCoordinate 0 1 1 0 1 = 4294967295 ∧
    (List.map
      (fun global_idx =>
        groupedConvMain (α := ℤ) [1, 1, 3, 3] [1, 1, 3, 3]
          ⟨1, [1, 1], [1, 1, 1, 1], [1, 1], "NCHW", ""⟩ false id
          (fun _ => 1) (fun _ => 1) (fun _ => 0) global_idx)
      [0, 2, 6, 8, 4]) = [some (0, 4), some (2, 4), some (6, 4), some (8, 4), some (4, 9)] :=
  ⟨inputCoordinate_skip_iff 0 1 1 0 1 3 (by norm_num) (by norm_num), by decide, by decide⟩

theorem groupId_lt (oc w0 group : Nat) (hg : 1 ≤ group) (hdvd : group ∣ w0) (hoc : oc < w0) :
    groupId oc w0 group < group := by
  obtain ⟨q, rfl⟩ := hdvd
  unfold groupId
  have hq : 0 < q := by
    rcases Nat.eq_zero_or_pos q with h | h
    · subst h; simp at hoc
    · exact h
  rw [Nat.mul_div_cancel_left q (by omega), Nat.div_lt_iff_lt_mul hq]
  exact hoc

theorem inputChannel_eq (g w1 wc group : Nat) (hg : g < group) (hwc : wc < w1)
    (hfit : group * w1 ≤ 4294967296) :
    inputChannel g w1 wc = g * w1 + wc ∧ g * w1 + wc < group * w1 := by
  have hlt : g * w1 + wc < group * w1 := by
    calc g * w1 + wc < g * w1 + w1 := by omega
      _ = (g + 1) * w1 := by ring
      _ ≤ group * w1 := Nat.mul_le_mul_right w1 hg
  refine ⟨?_, hlt⟩
  unfold inputChannel
  have hA : ((g : Int) * (w1 : Int)) = ((g * w1 : Nat) : Int) := by push_cast; ring
  have h1 : (wrapU32 ((g : Int) * (w1 : Int)) : Int) = ((g * w1 : Nat) : Int) := by
    rw [hA]
    exact wrapU32_of_range _ (by omega) (by omega)
  have h2 := wrapU32_of_range (((g * w1 : Nat) : Int) + (wc : Int)) (by omega) (by omega)
  rw [h1]
  omega

/-- C13 (counterexample). With `group = 3`, `w.dims[0] = 3` and `w.dims[1] = 2^31`, the output
channel 2 has `group_id = 2`, and for `wInChannel = 0` the `u32` value
`group_id * w.dims[1] + wInChannel` wraps to 0: input channel 0 lies in the slice of group 0, not of
group 2, and output channel 0, of group 0, reads it too. -/
theorem inputChannel_wraps :
    3 ∣ 3 ∧ groupId 2 3 3 = 2 ∧ groupId 0 3 3 = 0 ∧
    inputChannel (groupId 2 3 3) 2147483648 0 = 0 ∧
    inputChannel (groupId 0 3 3) 2147483648 0 = 0 ∧
    ¬ (groupId 2 3 3 * 2147483648 ≤ inputChannel (groupId 2 3 3) 2147483648 0) := by
  decide

/-- C13 (amended). For every `group ≥ 1` that divides `w.dims[0]` with
`group * w.dims[1] ≤ 2^32` (the input channel count fits `u32`), every output channel
`oc < w.dims[0]` and every `wInChannel < w.dims[1]`: `group_id = oc div (w.dims[0] / group)` is
below `group`, and the input channel the kernel reads is `group_id * w.dims[1] + wInChannel`, in
the slice `[group_id * w.dims[1], (group_id + 1) * w.dims[1])` of that group only; hence it is
below `group * w.dims[1]`, and two output channels in different groups never read a common input
channel. -/
theorem inputChannel_in_group_slice (group w0 w1 oc wInChannel : Nat) (hg : 1 ≤ group)
    (hdvd : group ∣ w0) (hfit : group * w1 ≤ 4294967296) (hoc : oc < w0)
    (hwc : wInChannel < w1) :
    groupId oc w0 group < group ∧
    inputChannel (groupId oc w0 group) w1 wInChannel = groupId oc w0 group * w1 + wInChannel ∧
    groupId oc w0 group * w1 ≤ inputChannel (groupId oc w0 group) w1 wInChannel ∧
    inputChannel (groupId oc w0 group) w1 wInChannel < (groupId oc w0 group + 1) * w1 ∧
    inputChannel (groupId oc w0 group) w1 wInChannel < group * w1 ∧
    ∀ oc' wInChannel', oc' < w0 → wInChannel' < w1 →
      groupId oc' w0 group ≠ groupId oc w0 group →
      inputChannel (groupId oc' w0 group) w1 wInChannel' ≠
        inputChannel (groupId oc w0 group) w1 wInChannel := by
  have hlt := groupId_lt oc w0 group hg hdvd hoc
  obtain ⟨heq, hbound⟩ := inputChannel_eq (groupId oc w0 group) w1 wInChannel group hlt hwc hfit
  refine ⟨hlt, heq, by omega, ?_, by omega, ?_⟩
  · rw [heq, Nat.add_mul, Nat.one_mul]
    omega
  · intro oc' wc' hoc' hwc' hne
    have hlt' := groupId_lt oc' w0 group hg hdvd hoc'
    obtain ⟨heq', _⟩ := inputChannel_eq (groupId oc' w0 group) w1 wc' group hlt' hwc' hfit
    rw [heq, heq']
    intro h
    apply hne
    generalize groupId oc' w0 group = a at *
    generalize groupId oc w0 group = b at *
    rcases Nat.lt_trichotomy a b with hab | hab | hab
    · exfalso
      have : (a + 1) * w1 ≤ b * w1 := Nat.mul_le_mul_right w1 hab
      rw [Nat.add_mul, Nat.one_mul] at this
      omega
    · exact hab
    · exfalso
      have : (b + 1) * w1 ≤ a * w1 := Nat.mul_le_mul_right w1 hab
      rw [Nat.add_mul, Nat.one_mul] at this
      omega

/-- C13 (witness): two groups of four input channels, output channel 5 of 6, kernel channel 3. -/
theorem inputChannel_in_group_slice_witness :
    groupId 5 6 2 < 2 ∧
    inputChannel (groupId 5 6 2) 4 3 = groupId 5 6 2 * 4 + 3 ∧
    groupId 5 6 2 * 4 ≤ inputChannel (groupId 5 6 2) 4 3 ∧
    inputChannel (groupId 5 6 2) 4 3 < (groupId 5 6 2 + 1) * 4 ∧
    inputChannel (groupId 5 6 2) 4 3 < 2 * 4 ∧
    ∀ oc' wInChannel', oc' < 6 → wInChannel' < 4 →
      groupId oc' 6 2 ≠ groupId 5 6 2 →
      inputChannel (groupId oc' 6 2) 4 wInChannel' ≠ inputChannel (groupId 5 6 2) 4 3 :=
  inputChannel_in_group_slice 2 6 4 5 3 (by norm_num) (by decide) (by norm_num) (by norm_num)
    (by norm_num)

/-! ## Grouped convolution: the descriptor -/

theorem convOutputSize_eq_floor (inputSize padBefore padAfter dilation kernelSize stride : Nat)
    (hs : 0 < stride) (hk : 1 ≤ kernelSize)
    (hfit : dilation * (kernelSize - 1) + 1 ≤ inputSize + padBefore + padAfter) :
    ((convOutputSize inputSize padBefore padAfter dilation kernelSize stride : Nat) : Int) =
      ⌊(((inputSize : ℚ) + padBefore + padAfter - dilation * ((kernelSize : ℚ) - 1) - 1) /
        (stride : ℚ))⌋ + 1 := by
  have hnum : (0 : Int) ≤
      (inputSize : Int) + padBefore + padAfter - dilation * ((kernelSize : Int) - 1) - 1 := by
    have h1 : ((dilation * (kernelSize - 1) + 1 : Nat) : Int) ≤
        ((inputSize + padBefore + padAfter : Nat) : Int) := by exact_mod_cast hfit
    push_cast [Nat.cast_sub hk] at h1
    linarith
  have hq : (((inputSize : ℚ) + padBefore + padAfter - dilation * ((kernelSize : ℚ) - 1) - 1) /
      (stride : ℚ)) =
      ((((inputSize : Int) + padBefore + padAfter - dilation * ((kernelSize : Int) - 1) - 1 :
        Int) : ℚ) / ((stride : Nat) : ℚ)) := by
    push_cast
    ring
  rw [hq, Rat.floor_intCast_div_natCast]
  unfold convOutputSize
  have hdiv : (0 : Int) ≤
      ((inputSize : Int) + padBefore + padAfter - dilation * ((kernelSize : Int) - 1) - 1) /
        (stride : Int) := Int.ediv_nonneg hnum (by omega)
  omega

theorem createGroupedConvProgramInfo_ok (env : GroupedConvEnv) (x w : TensorView)
    (rest : List TensorView) (metadata : ProgramMetadata) (attributes : ConvAttributes)
    (squeeze : Option (List Nat → List Nat)) :
    ∃ info : ProgramInfo ShaderHelper,
      createGroupedConvProgramInfo env (x :: w :: rest) metadata attributes squeeze = .ok info ∧
      info.name = metadata.name ∧ info.inputTypes = metadata.inputTypes ∧
      info.cacheHint = some metadata.cacheHint ∧
      info.outputs =
        [{ dims := match squeeze with
            | some f => f (calculateOutputShape x.dims w.dims attributes.dilations
                attributes.pads attributes.strides (decide (attributes.format = "NHWC")))
            | none => calculateOutputShape x.dims w.dims attributes.dilations attributes.pads
                attributes.strides (decide (attributes.format = "NHWC"))
           dataType := x.dataType
           gpuDataType := GpuDataType.default }] ∧
      info.dispatchGroup () =
        groupedConvDispatchGroup
          (ShapeUtil.size (calculateOutputShape x.dims w.dims attributes.dilations
            attributes.pads attributes.strides (decide (attributes.format = "NHWC")))) ∧
      info.getShaderSource =
        groupedConvShaderSource env attributes x.dims w.dims
          (groupedConvInputVars env x w rest.head?)
          (env.inputVariable "x" x.dataType x.dims) (env.inputVariable "w" w.dataType w.dims)
          (env.outputVariable "output" x.dataType
            (calculateOutputShape x.dims w.dims attributes.dilations attributes.pads
              attributes.strides (decide (attributes.format = "NHWC"))))
          (decide (attributes.format = "NHWC"))
          (ShapeUtil.size (calculateOutputShape x.dims w.dims attributes.dilations
            attributes.pads attributes.strides (decide (attributes.format = "NHWC"))))
          (jsQuotient w.dims[0]? attributes.group)
          (if decide ((x :: w :: rest).length > 2) then "value += b[output_channel];" else "") :=
  ⟨_, rfl, rfl, rfl, rfl, rfl, rfl, rfl⟩

/-- C14. For rank-4 input and weight shapes and attributes with positive strides, kernel sizes at
least one and a dilated kernel that fits the padded input, the output shape the generator computes
has, in each spatial dimension, the size
`floor((inputSize + padBefore + padAfter - dilation*(kernelSize - 1) - 1) / stride) + 1`, with
batch `x.dims[0]` and channels `w.dims[0]` placed according to the format; the descriptor's output
dims are this shape, or `squeezeOutputShapeFunction` applied to it when that function is supplied,
and its data type is that of `x`. -/
theorem createGroupedConvProgramInfo_outputShape (env : GroupedConvEnv) (x w : TensorView)
    (rest : List TensorView) (metadata : ProgramMetadata) (attributes : ConvAttributes)
    (squeeze : Option (List Nat → List Nat))
    (x0 x1 x2 x3 w0 w1 w2 w3 s0 s1 pb0 pb1 pa0 pa1 d0 d1 : Nat)
    (hx : x.dims = [x0, x1, x2, x3]) (hw : w.dims = [w0, w1, w2, w3])
    (hs : attributes.strides = [s0, s1]) (hp : attributes.pads = [pb0, pb1, pa0, pa1])
    (hd : attributes.dilations = [d0, d1]) (hs0 : 0 < s0) (hs1 : 0 < s1) (hk2 : 1 ≤ w2)
    (hk3 : 1 ≤ w3)
    (hfitH : d0 * (w2 - 1) + 1 ≤ (if attributes.format = "NHWC" then x1 else x2) + pb0 + pa0)
    (hfitW : d1 * (w3 - 1) + 1 ≤ (if attributes.format = "NHWC" then x2 else x3) + pb1 + pa1) :
    ∃ (info : ProgramInfo ShaderHelper) (height width : Nat),
      createGroupedConvProgramInfo env (x :: w :: rest) metadata attributes squeeze = .ok info ∧
      (height : Int) =
        ⌊((((if attributes.format = "NHWC" then x1 else x2 : Nat) : ℚ) + pb0 + pa0 -
          d0 * ((w2 : ℚ) - 1) - 1) / (s0 : ℚ))⌋ + 1 ∧
      (width : Int) =
        ⌊((((if attributes.format = "NHWC" then x2 else x3 : Nat) : ℚ) + pb1 + pa1 -
          d1 * ((w3 : ℚ) - 1) - 1) / (s1 : ℚ))⌋ + 1 ∧
      info.outputs =
        [{ dims := match squeeze with
            | some f =>
              f (if attributes.format = "NHWC" then [x0, height, width, w0]
                 else [x0, w0, height, width])
            | none =>
              if attributes.format = "NHWC" then [x0, height, width, w0]
              else [x0, w0, height, width]
           dataType := x.dataType
           gpuDataType := GpuDataType.default }] := by
  obtain ⟨info, hinfo, _, _, _, hout, _, _⟩ :=
    createGroupedConvProgramInfo_ok env x w rest metadata attributes squeeze
  refine ⟨info,
    convOutputSize (if attributes.format = "NHWC" then x1 else x2) pb0 pa0 d0 w2 s0,
    convOutputSize (if attributes.format = "NHWC" then x2 else x3) pb1 pa1 d1 w3 s1,
    hinfo, convOutputSize_eq_floor _ pb0 pa0 d0 w2 s0 hs0 hk2 hfitH,
    convOutputSize_eq_floor _ pb1 pa1 d1 w3 s1 hs1 hk3 hfitW, ?_⟩
  rw [hout, hx, hw, hs, hp, hd]
  by_cases hf : attributes.format = "NHWC"
  · simp [calculateOutputShape, hf]
  · simp [calculateOutputShape, hf]

/-- C14 (witness): the input `[1,1,4,4]` with the kernel `[1,1,2,2]`, strides and dilations 1 and
no padding; the output shape is `[1,1,3,3]`. -/
theorem createGroupedConvProgramInfo_outputShape_witness :
    (∃ (info : ProgramInfo ShaderHelper) (height width : Nat),
      createGroupedConvProgramInfo exampleEnv [⟨[1, 1, 4, 4], 1⟩, ⟨[1, 1, 2, 2], 1⟩]
        ⟨"GroupedConv", [0, 0], ""⟩ ⟨1, [1, 1], [0, 0, 0, 0], [1, 1], "NCHW", ""⟩ none =
        .ok info ∧
      (height : Int) =
        ⌊((((if ("NCHW" : String) = "NHWC" then 1 else 4 : Nat) : ℚ) + (0 : Nat) + (0 : Nat) -
          (1 : Nat) * (((2 : Nat) : ℚ) - 1) - 1) / ((1 : Nat) : ℚ))⌋ + 1 ∧
      (width : Int) =
        ⌊((((if ("NCHW" : String) = "NHWC" then 4 else 4 : Nat) : ℚ) + (0 : Nat) + (0 : Nat) -
          (1 : Nat) * (((2 : Nat) : ℚ) - 1) - 1) / ((1 : Nat) : ℚ))⌋ + 1 ∧
      info.outputs =
        [{ dims := match (none : Option (List Nat → List Nat)) with
            | some f =>
              f (if ("NCHW" : String) = "NHWC" then [1, height, width, 1]
                 else [1, 1, height, width])
            | none =>
              if ("NCHW" : String) = "NHWC" then [1, height, width, 1]
              else [1, 1, height, width]
           dataType := 1
           gpuDataType := GpuDataType.default }]) ∧
    calculateOutputShape [1, 1, 4, 4] [1, 1, 2, 2] [1, 1] [0, 0, 0, 0] [1, 1] false =
      [1, 1, 3, 3] :=
  ⟨createGroupedConvProgramInfo_outputShape exampleEnv ⟨[1, 1, 4, 4], 1⟩ ⟨[1, 1, 2, 2], 1⟩ []
      ⟨"GroupedConv", [0, 0], ""⟩ ⟨1, [1, 1], [0, 0, 0, 0], [1, 1], "NCHW", ""⟩ none
      1 1 4 4 1 1 2 2 1 1 0 0 0 0 1 1 rfl rfl rfl rfl rfl (by norm_num) (by norm_num)
      (by norm_num) (by norm_num) (by decide) (by decide),
    by decide⟩

theorem mathCeil_div_64 (n : Nat) :
    mathCeil ((n : ℚ) / 64) = some ((((n + 63) / 64 : Nat) : ℚ)) := by
  unfold mathCeil
  have h1 : 64 * ((n + 63) / 64) < n + 64 := by omega
  have h2 : n ≤ 64 * ((n + 63) / 64) := by omega
  generalize (n + 63) / 64 = g at h1 h2 ⊢
  have h1q : (64 : ℚ) * (g : ℚ) < (n : ℚ) + 64 := by exact_mod_cast h1
  have h2q : (n : ℚ) ≤ 64 * (g : ℚ) := by exact_mod_cast h2
  have hceil : ⌈(n : ℚ) / 64⌉ = (g : Int) := by
    rw [Int.ceil_eq_iff, Int.cast_natCast]
    constructor
    · rw [lt_div_iff₀ (by norm_num : (0 : ℚ) < 64)]
      linarith
    · rw [div_le_iff₀ (by norm_num : (0 : ℚ) < 64)]
      linarith
  rw [hceil]
  rfl

/-- C15. For every output element count `n`, `dispatchGroup()` of the grouped-convolution
descriptor, `x: Math.ceil(n / 64)`, is the least natural number `g` with `64 * g ≥ n`: every flat
output index below `n` is the invocation `lane < 64` of a block below `g`, and fewer than 64
invocations of the `g` blocks fall at or beyond `n`. The descriptor the generator returns has this
dispatch for `n` the element count of the (unsqueezed) output shape. -/
theorem groupedConvDispatchGroup_ceil (n : Nat) :
    (∃ g : Nat, (groupedConvDispatchGroup n).x = some (g : ℚ) ∧
      ((g : Int) : ℚ) = ((⌈(n : ℚ) / 64⌉ : Int) : ℚ) ∧
      n ≤ 64 * g ∧ (∀ g', n ≤ 64 * g' → g ≤ g') ∧
      (∀ i, i < n → ∃ block lane, block < g ∧ lane < 64 ∧ i = 64 * block + lane) ∧
      64 * g - n < 64) ∧
    ∀ (env : GroupedConvEnv) (x w : TensorView) (rest : List TensorView)
      (metadata : ProgramMetadata) (attributes : ConvAttributes)
      (squeeze : Option (List Nat → List Nat)),
      n = ShapeUtil.size (calculateOutputShape x.dims w.dims attributes.dilations
        attributes.pads attributes.strides (decide (attributes.format = "NHWC"))) →
      ∃ info : ProgramInfo ShaderHelper,
        createGroupedConvProgramInfo env (x :: w :: rest) metadata attributes squeeze =
          .ok info ∧
        info.dispatchGroup () = groupedConvDispatchGroup n := by
  constructor
  · have hx : (groupedConvDispatchGroup n).x = some ((((n + 63) / 64 : Nat) : ℚ)) :=
      mathCeil_div_64 n
    refine ⟨(n + 63) / 64, hx, ?_, by omega, fun g' hg' => by omega, fun i hi => ?_, by omega⟩
    · have h := mathCeil_div_64 n
      unfold mathCeil at h
      have h' := Option.some.inj h
      rw [h']
      norm_cast
    · exact ⟨i / 64, i % 64, by omega, by omega, by omega⟩
  · intro env x w rest metadata attributes squeeze hn
    obtain ⟨info, hinfo, _, _, _, _, hdisp, _⟩ :=
      createGroupedConvProgramInfo_ok env x w rest metadata attributes squeeze
    exact ⟨info, hinfo, by rw [hdisp, hn]⟩

/-- C16. For every input list of length at least 2 and every attribute record,
`createGroupedConvProgramInfoLoader` returns a loader named `GroupedConv` whose cache hint is
`attributes.cacheKey` and whose `inputTypes` has length 3 when a bias input is present
(`inputs.length > 2`) and 2 otherwise; none of the three depends on what `get` returns. The
descriptor returned by its `get()` carries the same name, input types and cache hint, and the
shader source declares as input variables `x`, `w` and, only with a bias, `b`, built from the
inputs in operand order, as many as there are input types. -/
theorem createGroupedConvProgramInfoLoader_metadata (env : GroupedConvEnv)
    (inputs : List TensorView) (attributes : ConvAttributes)
    (squeeze : Option (List Nat → List Nat)) (hlen : 2 ≤ inputs.length) :
    (createGroupedConvProgramInfoLoader env inputs attributes squeeze).name = "GroupedConv" ∧
    (createGroupedConvProgramInfoLoader env inputs attributes squeeze).cacheHint =
      some attributes.cacheKey ∧
    (createGroupedConvProgramInfoLoader env inputs attributes squeeze).inputTypes.length =
      (if inputs.length > 2 then 3 else 2) ∧
    ∃ (info : ProgramInfo ShaderHelper) (x w : TensorView) (rest : List TensorView)
      (inputVars : List IndicesHelper),
      inputs = x :: w :: rest ∧
      (createGroupedConvProgramInfoLoader env inputs attributes squeeze).get () = .ok info ∧
      info.name = (createGroupedConvProgramInfoLoader env inputs attributes squeeze).name ∧
      info.inputTypes =
        (createGroupedConvProgramInfoLoader env inputs attributes squeeze).inputTypes ∧
      info.cacheHint =
        (createGroupedConvProgramInfoLoader env inputs attributes squeeze).cacheHint ∧
      inputVars = groupedConvInputVars env x w rest.head? ∧
      inputVars.length = info.inputTypes.length ∧
      inputVars =
        [env.inputVariable "x" x.dataType x.dims, env.inputVariable "w" w.dataType w.dims] ++
          (match rest with
            | b :: _ => [env.inputVariable "b" b.dataType b.dims]
            | [] => []) ∧
      info.getShaderSource =
        groupedConvShaderSource env attributes x.dims w.dims inputVars
          (env.inputVariable "x" x.dataType x.dims) (env.inputVariable "w" w.dataType w.dims)
          (env.outputVariable "output" x.dataType
            (calculateOutputShape x.dims w.dims attributes.dilations attributes.pads
              attributes.strides (decide (attributes.format = "NHWC"))))
          (decide (attributes.format = "NHWC"))
          (ShapeUtil.size (calculateOutputShape x.dims w.dims attributes.dilations
            attributes.pads attributes.strides (decide (attributes.format = "NHWC"))))
          (jsQuotient w.dims[0]? attributes.group)
          (if decide (inputs.length > 2) then "value += b[output_channel];" else "") := by
  obtain ⟨x, w, rest, rfl⟩ : ∃ x w rest, inputs = x :: w :: rest := by
    rcases inputs with _ | ⟨x, _ | ⟨w, rest⟩⟩
    · simp at hlen
    · simp at hlen
    · exact ⟨x, w, rest, rfl⟩
  refine ⟨rfl, rfl, ?_, ?_⟩
  · cases rest <;> simp [createGroupedConvProgramInfoLoader, createGroupedConvProgramMetadata]
  · obtain ⟨info, hinfo, hname, htypes, hhint, _, _, hsrc⟩ :=
      createGroupedConvProgramInfo_ok env x w rest
        (createGroupedConvProgramMetadata (decide ((x :: w :: rest).length > 2))
          attributes.cacheKey) attributes squeeze
    refine ⟨info, x, w, rest, _, rfl, hinfo, hname, htypes, hhint, rfl, ?_, ?_, hsrc⟩
    · rw [htypes]
      cases rest <;> simp [groupedConvInputVars, createGroupedConvProgramMetadata]
    · cases rest <;> rfl

/-- C16 (witness): inputs `x`, `w` and a bias. -/
theorem createGroupedConvProgramInfoLoader_metadata_witness :
    (createGroupedConvProgramInfoLoader exampleEnv
      [⟨[1, 2, 4, 4], 1⟩, ⟨[2, 1, 2, 2], 1⟩, ⟨[2], 1⟩]
      ⟨2, [1, 1], [0, 0, 0, 0], [1, 1], "NCHW", "key"⟩ none).inputTypes = [0, 0, 0] ∧
    ((createGroupedConvProgramInfoLoader exampleEnv
        [⟨[1, 2, 4, 4], 1⟩, ⟨[2, 1, 2, 2], 1⟩, ⟨[2], 1⟩]
        ⟨2, [1, 1], [0, 0, 0, 0], [1, 1], "NCHW", "key"⟩ none).name = "GroupedConv" ∧
      (createGroupedConvProgramInfoLoader exampleEnv
        [⟨[1, 2, 4, 4], 1⟩, ⟨[2, 1, 2, 2], 1⟩, ⟨[2], 1⟩]
        ⟨2, [1, 1], [0, 0, 0, 0], [1, 1], "NCHW", "key"⟩ none).cacheHint = some "key" ∧
      (createGroupedConvProgramInfoLoader exampleEnv
        [⟨[1, 2, 4, 4], 1⟩, ⟨[2, 1, 2, 2], 1⟩, ⟨[2], 1⟩]
        ⟨2, [1, 1], [0, 0, 0, 0], [1, 1], "NCHW", "key"⟩ none).inputTypes.length = 3) :=
  ⟨rfl,
    (createGroupedConvProgramInfoLoader_metadata exampleEnv
      [⟨[1, 2, 4, 4], 1⟩, ⟨[2, 1, 2, 2], 1⟩, ⟨[2], 1⟩]
      ⟨2, [1, 1], [0, 0, 0, 0], [1, 1], "NCHW", "key"⟩ none (by decide)).1,
    (createGroupedConvProgramInfoLoader_metadata exampleEnv
      [⟨[1, 2, 4, 4], 1⟩, ⟨[2, 1, 2, 2], 1⟩, ⟨[2], 1⟩]
      ⟨2, [1, 1], [0, 0, 0, 0], [1, 1], "NCHW", "key"⟩ none (by decide)).2.1,
    (createGroupedConvProgramInfoLoader_metadata exampleEnv
      [⟨[1, 2, 4, 4], 1⟩, ⟨[2, 1, 2, 2], 1⟩, ⟨[2], 1⟩]
      ⟨2, [1, 1], [0, 0, 0, 0], [1, 1], "NCHW", "key"⟩ none (by decide)).2.2.1⟩

/-! ## Grouped convolution: the value stored -/

theorem offsetToIndices_lt :
    ∀ (dims : List Nat) (offset i : Nat), offset < dims.prod → i < dims.length →
      (offsetToIndices dims offset).getD i 0 < dims.getD i 0 := by
  intro dims
  induction dims with
  | nil => intro offset i _ hi; simp at hi
  | cons d rest ih =>
    intro offset i hoff hi
    rw [List.prod_cons] at hoff
    have hpos : 0 < rest.prod := by
      rcases Nat.eq_zero_or_pos rest.prod with h | h
      · rw [h] at hoff; simp at hoff
      · exact h
    rcases i with _ | i
    · show offset / rest.prod < d
      rw [Nat.div_lt_iff_lt_mul hpos]
      exact hoff
    · show (offsetToIndices rest (offset % rest.prod)).getD i 0 < rest.getD i 0
      exact ih (offset % rest.prod) i (Nat.mod_lt _ hpos) (by simpa using hi)

theorem foldl_add_range {α : Type} [AddCommMonoid α] (F : α → Nat → α) (g : Nat → α)
    (hF : ∀ v k, F v k = v + g k) :
    ∀ (n : Nat) (v : α), (List.range n).foldl F v = v + ∑ k in Finset.range n, g k := by
  intro n
  induction n with
  | zero => intro v; simp
  | succ n ih =>
    intro v
    rw [List.range_succ, List.foldl_append, ih, Finset.sum_range_succ]
    simp only [List.foldl_cons, List.foldl_nil]
    rw [hF, add_assoc]

theorem conv_fold {α : Type} [CommRing α] (w1 w2 w3 H W : Nat) (cH cW : Nat → Nat)
    (T : Nat → Nat → Nat → α) :
    (List.range w1).foldl (fun value wInChannel =>
      (List.range w2).foldl (fun value wHeight =>
        if skipsTerm (cH wHeight) H then value
        else
          (List.range w3).foldl (fun value wWidth =>
            if skipsTerm (cW wWidth) W then value
            else value + T wInChannel wHeight wWidth) value) value) 0 =
    ∑ wInChannel in Finset.range w1, ∑ wHeight in Finset.range w2,
      ∑ wWidth in Finset.range w3,
        if skipsTerm (cH wHeight) H ∨ skipsTerm (cW wWidth) W then 0
        else T wInChannel wHeight wWidth := by
  have hinner : ∀ (wc kh : Nat) (v : α),
      (List.range w3).foldl (fun value wWidth =>
        if skipsTerm (cW wWidth) W then value else value + T wc kh wWidth) v =
      v + ∑ kw in Finset.range w3, if skipsTerm (cW kw) W then 0 else T wc kh kw := by
    intro wc kh v
    apply foldl_add_range
    intro v k
    by_cases h : skipsTerm (cW k) W <;> simp [h]
  have hmid : ∀ (wc : Nat) (v : α),
      (List.range w2).foldl (fun value wHeight =>
        if skipsTerm (cH wHeight) H then value
        else
          (List.range w3).foldl (fun value wWidth =>
            if skipsTerm (cW wWidth) W then value
            else value + T wc wHeight wWidth) value) v =
      v + ∑ kh in Finset.range w2, ∑ kw in Finset.range w3,
        if skipsTerm (cH kh) H ∨ skipsTerm (cW kw) W then 0 else T wc kh kw := by
    intro wc v
    apply foldl_add_range
    intro v k
    by_cases h : skipsTerm (cH k) H
    · simp [h]
    · simp only [h, if_false, false_or]
      exact hinner wc k v
  rw [foldl_add_range _ _ (fun v k => hmid k v), zero_add]

theorem inputCoordinate_spec (o s p k d H : Nat) (h1 : o * s + k * d < 4294967296)
    (h2 : p + H ≤ 4294967296) :
    (skipsTerm (inputCoordinate o s p k d) H ↔
      ¬ (0 ≤ (o : Int) * s - p + (k : Int) * d ∧ (o : Int) * s - p + (k : Int) * d < H)) ∧
    (¬ skipsTerm (inputCoordinate o s p k d) H →
      inputCoordinate o s p k d = ((o : Int) * s - p + (k : Int) * d).toNat) := by
  have hc := inputCoordinate_cases o s p k d h1 (by omega)
  have hA : (o : Int) * s = ((o * s : Nat) : Int) := by push_cast; ring
  have hB : (k : Int) * d = ((k * d : Nat) : Int) := by push_cast; ring
  rw [hA, hB] at hc ⊢
  unfold skipsTerm
  generalize inputCoordinate o s p k d = c at *
  generalize o * s = A at *
  generalize k * d = B at *
  refine ⟨?_, ?_⟩ <;> omega

/-- C11 (amended). For every grouped convolution with rank-4 `x` and `w`, `group ≥ 1` dividing
`w.dims[0]`, in either layout, whose coordinate arithmetic stays within `u32`
(`group * w.dims[1] ≤ 2^32`, `pad + inputSize ≤ 2^32` and `o * stride + k * dilation < 2^32` for
every output coordinate `o` and kernel offset `k`, in both spatial dimensions), and for every flat
output index below the output element count, the invocation stores at that index the value of
`groupedConvReference` at the decoded output coordinate `(b, oc, oh, ow)`: the activation of
`bias[oc]` (0 when absent) plus the sum over `wInChannel`, `kh`, `kw` of
`x[b, g * w.dims[1] + wInChannel, oh*stride0 - pad0 + kh*dil0, ow*stride1 - pad1 + kw*dil1] *
w[oc, wInChannel, kh, kw]`, terms with an out-of-range input coordinate counting as 0. -/
theorem groupedConvMain_eq_reference {α : Type} [CommRing α]
    (x0 x1 x2 x3 w0 w1 w2 w3 group s0 s1 p0 p1 d0 d1 : Nat) (padsAfter : List Nat)
    (format cacheKey : String) (hasBias : Bool) (activation : α → α) (x w b : Nat → α)
    (global_idx : Nat) (hg : 1 ≤ group) (hdvd : group ∣ w0)
    (hidx : global_idx < ShapeUtil.size
      (calculateOutputShape [x0, x1, x2, x3] [w0, w1, w2, w3] [d0, d1] (p0 :: p1 :: padsAfter)
        [s0, s1] (decide (format = "NHWC"))))
    (hfit : group * w1 ≤ 4294967296)
    (hpH : p0 + (if format = "NHWC" then x1 else x2) ≤ 4294967296)
    (hpW : p1 + (if format = "NHWC" then x2 else x3) ≤ 4294967296)
    (hoH : ∀ o k,
      o < (calculateOutputShape [x0, x1, x2, x3] [w0, w1, w2, w3] [d0, d1]
        (p0 :: p1 :: padsAfter) [s0, s1] (decide (format = "NHWC"))).getD
          (if format = "NHWC" then 1 else 2) 0 →
      k < w2 → o * s0 + k * d0 < 4294967296)
    (hoW : ∀ o k,
      o < (calculateOutputShape [x0, x1, x2, x3] [w0, w1, w2, w3] [d0, d1]
        (p0 :: p1 :: padsAfter) [s0, s1] (decide (format = "NHWC"))).getD
          (if format = "NHWC" then 2 else 3) 0 →
      k < w3 → o * s1 + k * d1 < 4294967296) :
    groupedConvMain [x0, x1, x2, x3] [w0, w1, w2, w3]
      ⟨group, [s0, s1], p0 :: p1 :: padsAfter, [d0, d1], format, cacheKey⟩
      hasBias activation x w b global_idx =
    some (global_idx,
      groupedConvReference [x0, x1, x2, x3] [w0, w1, w2, w3]
        ⟨group, [s0, s1], p0 :: p1 :: padsAfter, [d0, d1], format, cacheKey⟩
        hasBias activation x w b
        ((offsetToIndices (calculateOutputShape [x0, x1, x2, x3] [w0, w1, w2, w3] [d0, d1]
          (p0 :: p1 :: padsAfter) [s0, s1] (decide (format = "NHWC"))) global_idx).getD 0 0)
        ((offsetToIndices (calculateOutputShape [x0, x1, x2, x3] [w0, w1, w2, w3] [d0, d1]
          (p0 :: p1 :: padsAfter) [s0, s1] (decide (format = "NHWC"))) global_idx).getD
            (if format = "NHWC" then 3 else 1) 0)
        ((offsetToIndices (calculateOutputShape [x0, x1, x2, x3] [w0, w1, w2, w3] [d0, d1]
          (p0 :: p1 :: padsAfter) [s0, s1] (decide (format = "NHWC"))) global_idx).getD
            (if format = "NHWC" then 1 else 2) 0)
        ((offsetToIndices (calculateOutputShape [x0, x1, x2, x3] [w0, w1, w2, w3] [d0, d1]
          (p0 :: p1 :: padsAfter) [s0, s1] (decide (format = "NHWC"))) global_idx).getD
            (if format = "NHWC" then 2 else 3) 0)) := by
  generalize hshape : calculateOutputShape [x0, x1, x2, x3] [w0, w1, w2, w3] [d0, d1]
    (p0 :: p1 :: padsAfter) [s0, s1] (decide (format = "NHWC")) = outputShape at *
  have hlen : outputShape.length = 4 := by
    rw [← hshape]
    unfold calculateOutputShape
    by_cases hf : format = "NHWC" <;> simp [hf]
  have hchan : outputShape.getD (if format = "NHWC" then 3 else 1) 0 = w0 := by
    rw [← hshape]
    unfold calculateOutputShape
    by_cases hf : format = "NHWC" <;> simp [hf]
  have hsize : global_idx < outputShape.prod := hidx
  generalize hoi : offsetToIndices outputShape global_idx = oi at *
  have hoc : oi.getD (if format = "NHWC" then 3 else 1) 0 < w0 := by
    rw [← hchan, ← hoi]
    apply offsetToIndices_lt _ _ _ hsize
    rw [hlen]
    split <;> norm_num
  have hoh : oi.getD (if format = "NHWC" then 1 else 2) 0 <
      outputShape.getD (if format = "NHWC" then 1 else 2) 0 := by
    rw [← hoi]
    apply offsetToIndices_lt _ _ _ hsize
    rw [hlen]
    split <;> norm_num
  have how : oi.getD (if format = "NHWC" then 2 else 3) 0 <
      outputShape.getD (if format = "NHWC" then 2 else 3) 0 := by
    rw [← hoi]
    apply offsetToIndices_lt _ _ _ hsize
    rw [hlen]
    split <;> norm_num
  have hgroup : ¬ (group = 0 ∨ w0 % group ≠ 0) := by
    rintro (h | h)
    · omega
    · exact h (Nat.mod_eq_zero_of_dvd hdvd)
  have hguard : ¬ global_idx ≥ ShapeUtil.size outputShape := not_le.2 hidx
  unfold groupedConvMain
  simp only [hshape, hoi, if_neg hgroup, if_neg hguard]
  simp only [decide_eq_true_eq]
  generalize oi.getD 0 0 = batch at *
  generalize oi.getD (if format = "NHWC" then 3 else 1) 0 = oc at *
  generalize oi.getD (if format = "NHWC" then 1 else 2) 0 = oh at *
  generalize oi.getD (if format = "NHWC" then 2 else 3) 0 = ow at *
  rw [conv_fold]
  unfold groupedConvReference
  simp only [decide_eq_true_eq, List.getD_cons_zero, List.getD_cons_succ]
  have hH : [x0, x1, x2, x3].getD (if format = "NHWC" then 1 else 2) 0 =
      if format = "NHWC" then x1 else x2 := by
    split <;> rfl
  have hW : [x0, x1, x2, x3].getD (if format = "NHWC" then 2 else 3) 0 =
      if format = "NHWC" then x2 else x3 := by
    split <;> rfl
  rw [hH, hW]
  generalize (if format = "NHWC" then x1 else x2) = inputHeight at *
  generalize (if format = "NHWC" then x2 else x3) = inputWidth at *
  have hgid := groupId_lt oc w0 group hg hdvd hoc
  have hsum :
      (∑ wInChannel in Finset.range w1, ∑ wHeight in Finset.range w2,
        ∑ wWidth in Finset.range w3,
          if skipsTerm (inputCoordinate oh s0 p0 wHeight d0) inputHeight ∨
              skipsTerm (inputCoordinate ow s1 p1 wWidth d1) inputWidth then 0
          else
            x (indicesToOffset [x0, x1, x2, x3]
              (if format = "NHWC" then
                [batch, inputCoordinate oh s0 p0 wHeight d0, inputCoordinate ow s1 p1 wWidth d1,
                  inputChannel (groupId oc w0 group) w1 wInChannel]
              else
                [batch, inputChannel (groupId oc w0 group) w1 wInChannel,
                  inputCoordinate oh s0 p0 wHeight d0, inputCoordinate ow s1 p1 wWidth d1])) *
            w (indicesToOffset [w0, w1, w2, w3] [oc, wInChannel, wHeight, wWidth])) =
      ∑ wInChannel in Finset.range w1, ∑ kh in Finset.range w2, ∑ kw in Finset.range w3,
        if 0 ≤ (oh : Int) * s0 - p0 + (kh : Int) * d0 ∧
            (oh : Int) * s0 - p0 + (kh : Int) * d0 < inputHeight ∧
            0 ≤ (ow : Int) * s1 - p1 + (kw : Int) * d1 ∧
            (ow : Int) * s1 - p1 + (kw : Int) * d1 < inputWidth then
          x (indicesToOffset [x0, x1, x2, x3]
            (if format = "NHWC" then
              [batch, ((oh : Int) * s0 - p0 + (kh : Int) * d0).toNat,
                ((ow : Int) * s1 - p1 + (kw : Int) * d1).toNat, oc / (w0 / group) * w1 + wInChannel]
            else
              [batch, oc / (w0 / group) * w1 + wInChannel,
                ((oh : Int) * s0 - p0 + (kh : Int) * d0).toNat,
                ((ow : Int) * s1 - p1 + (kw : Int) * d1).toNat])) *
          w (indicesToOffset [w0, w1, w2, w3] [oc, wInChannel, kh, kw])
        else 0 := by
    apply Finset.sum_congr rfl
    intro wc hwc
    apply Finset.sum_congr rfl
    intro kh hkh
    apply Finset.sum_congr rfl
    intro kw hkw
    rw [Finset.mem_range] at hwc hkh hkw
    obtain ⟨hskipH, heqH⟩ := inputCoordinate_spec oh s0 p0 kh d0 inputHeight
      (hoH oh kh hoh hkh) hpH
    obtain ⟨hskipW, heqW⟩ := inputCoordinate_spec ow s1 p1 kw d1 inputWidth
      (hoW ow kw how hkw) hpW
    have hic := (inputChannel_eq (groupId oc w0 group) w1 wc group hgid hwc hfit).1
    by_cases hsH : skipsTerm (inputCoordinate oh s0 p0 kh d0) inputHeight
    · rw [if_pos (Or.inl hsH), if_neg]
      intro hcond
      exact hskipH.1 hsH ⟨hcond.1, hcond.2.1⟩
    · by_cases hsW : skipsTerm (inputCoordinate ow s1 p1 kw d1) inputWidth
      · rw [if_pos (Or.inr hsW), if_neg]
        intro hcond
        exact hskipW.1 hsW ⟨hcond.2.2.1, hcond.2.2.2⟩
      · have hinH := not_not.1 (fun hn => hsH (hskipH.2 hn))
        have hinW := not_not.1 (fun hn => hsW (hskipW.2 hn))
        have hcond : 0 ≤ (oh : Int) * s0 - p0 + (kh : Int) * d0 ∧
            (oh : Int) * s0 - p0 + (kh : Int) * d0 < inputHeight ∧
            0 ≤ (ow : Int) * s1 - p1 + (kw : Int) * d1 ∧
            (ow : Int) * s1 - p1 + (kw : Int) * d1 < inputWidth :=
          ⟨hinH.1, hinH.2, hinW.1, hinW.2⟩
        rw [if_neg (not_or.2 ⟨hsH, hsW⟩), if_pos hcond, heqH hsH, heqW hsW, hic]
        rfl
  rw [hsum]
  cases hasBias
  · simp
  · simp [add_comm]

/-- C11 (counterexample). Input `[1,1,3,1]` and kernel `[1,1,1,1]` of ones, `group = 1`, no bias,
strides `[4294967295, 1]`, pads `[4294967295, 0, 0, 0]`; the output shape is `[1,1,2,1]`. For
the flat output index 0, decoded as `(0,0,0,0)`, the input row is `0*stride - pad = -4294967295`,
out of range, so the claimed value is 0; in `u32` the row wraps to 1, which passes the bounds test,
and the kernel stores `x[0,0,1,0] * w[0,0,0,0] = 1`. -/
theorem groupedConvMain_pad_wraps :
    calculateOutputShape [1, 1, 3, 1] [1, 1, 1, 1] [1, 1] [4294967295, 0, 0, 0]
      [4294967295, 1] false = [1, 1, 2, 1] ∧
    offsetToIndices [1, 1, 2, 1] 0 = [0, 0, 0, 0] ∧
    inputCoordinate 0 4294967295 4294967295 0 1 = 1 ∧
    groupedConvMain (α := ℤ) [1, 1, 3, 1] [1, 1, 1, 1]
      ⟨1, [4294967295, 1], [4294967295, 0, 0, 0], [1, 1], "NCHW", ""⟩ false id
      (fun _ => 1) (fun _ => 1) (fun _ => 0) 0 = some (0, 1) ∧
    groupedConvReference (α := ℤ) [1, 1, 3, 1] [1, 1, 1, 1]
      ⟨1, [4294967295, 1], [4294967295, 0, 0, 0], [1, 1], "NCHW", ""⟩ false id
      (fun _ => 1) (fun _ => 1) (fun _ => 0) 0 0 0 0 = 0 := by
  refine ⟨by decide, by decide, by decide, by decide, ?_⟩
  decide

/-- C11 (witness): the input `[1,1,4,4]` with the all-ones kernel `[1,1,2,2]`, `group = 1`,
strides and dilations 1, no padding, no bias, channel-first. The centre invocation 4 stores the
reference value at the output coordinate `(0,0,1,1)`, and each of the nine output elements is the
sum of its 2x2 input window. -/
theorem groupedConvMain_eq_reference_witness :
    (∀ x : Nat → ℤ,
      groupedConvMain (α := ℤ) [1, 1, 4, 4] [1, 1, 2, 2]
        ⟨1, [1, 1], [0, 0, 0, 0], [1, 1], "NCHW", ""⟩ false id x (fun _ => 1) (fun _ => 0) 4 =
      some (4,
        groupedConvReference (α := ℤ) [1, 1, 4, 4] [1, 1, 2, 2]
          ⟨1, [1, 1], [0, 0, 0, 0], [1, 1], "NCHW", ""⟩ false id x (fun _ => 1) (fun _ => 0)
          0 0 1 1)) ∧
    ∀ x : Nat → ℤ,
      List.map
        (fun global_idx =>
          groupedConvMain (α := ℤ) [1, 1, 4, 4] [1, 1, 2, 2]
            ⟨1, [1, 1], [0, 0, 0, 0], [1, 1], "NCHW", ""⟩ false id
            x (fun _ => 1) (fun _ => 0) global_idx)
        [0, 1, 2, 3, 4, 5, 6, 7, 8] =
      [some (0, x 0 + x 1 + x 4 + x 5), some (1, x 1 + x 2 + x 5 + x 6),
       some (2, x 2 + x 3 + x 6 + x 7), some (3, x 4 + x 5 + x 8 + x 9),
       some (4, x 5 + x 6 + x 9 + x 10), some (5, x 6 + x 7 + x 10 + x 11),
       some (6, x 8 + x 9 + x 12 + x 13), some (7, x 9 + x 10 + x 13 + x 14),
       some (8, x 10 + x 11 + x 14 + x 15)] := by
  have hshape : calculateOutputShape [1, 1, 4, 4] [1, 1, 2, 2] [1, 1] [0, 0, 0, 0] [1, 1]
      (decide (("NCHW" : String) = "NHWC")) = [1, 1, 3, 3] := by decide
  constructor
  · intro x
    exact groupedConvMain_eq_reference 1 1 4 4 1 1 2 2 1 1 1 0 0 1 1 [0, 0] "NCHW" "" false id
      x (fun _ => 1) (fun _ => 0) 4 (by norm_num) (by norm_num) (by decide) (by norm_num)
      (by decide) (by decide)
      (fun o k ho hk => by
        rw [hshape] at ho
        have ho' : o < 3 := ho
        omega)
      (fun o k ho hk => by
        rw [hshape] at ho
        have ho' : o < 3 := ho
        omega)
  · intro x
    simp [groupedConvMain, calculateOutputShape, convOutputSize, ShapeUtil.size,
      offsetToIndices, indicesToOffset, inputCoordinate, wrapU32, skipsTerm, groupId,
      inputChannel, List.range_succ]

end Jsep
